import Mathlib

/-!
Verification of the capsule core of `Collider-Tools`
(`src/bmesh_operations/capsule_generation.py`).

The development shallowly embeds the two host-independent functions of the
repository:

* `calculate_radius_height` (the Shape Fitter, lines 9-91), and
* `create_capsule_data` (the Capsule Mesh Builder, lines 153-557).

Modelling conventions:

* Python floats are modelled by exact rationals (`ℚ`).  Square roots
  (`np.linalg.norm`) are irrational, so where the source stores a norm the
  embedding stores its square (`radiusSq` is the square of the source's
  `radius`, the basis vectors are kept un-normalised) and the theorems state
  the norm/normalisation facts over `ℝ` with `Real.sqrt` at the statement
  level.  Since `Real.sqrt` is monotone on the non-negatives, a maximum of
  norms is the square root of the maximum of squared norms, so nothing is
  lost by this encoding.
* `np.linalg.svd` is an external library routine, not code of this
  repository; the principal axis it returns is therefore passed to the
  embedded Fitter as an explicit argument (`principal_axis`), and every
  theorem quantifies over it (adding the hypotheses — unit length — that the
  top right-singular vector of a real matrix satisfies).
* `math.sin`/`math.cos` are likewise external; the Builder only ever uses
  them applied to `j * (tau / lons)` (azimuth, per longitude index `j`) and
  `(i + 1) * (pi / lats)` (colatitude, per latitude index `i`), so the
  embedding takes two oracle functions `sinCosTheta, sinCosPhi : ℕ → ℚ × ℚ`
  returning the `(sin, cos)` pairs for those indices.  No claim under
  verification depends on the actual values of the trigonometric functions.
* The Builder's imperative array fills write disjoint index regions of
  pre-allocated lists; the embedding builds each buffer as the concatenation
  of those regions in index order, with each region's content read off the
  corresponding loop body.  Offset constants keep the source's names and
  formulas (signed arithmetic, since e.g. `half_lats - 2` is `-1` for the
  minimal latitude count).
-/

/-- A 3D point/vector with rational coordinates. -/
abbrev Q3 : Type := ℚ × ℚ × ℚ

/-- Componentwise sum of two vectors. -/
def addQ (a b : Q3) : Q3 := (a.1 + b.1, a.2.1 + b.2.1, a.2.2 + b.2.2)

/-- Componentwise difference of two vectors. -/
def subQ (a b : Q3) : Q3 := (a.1 - b.1, a.2.1 - b.2.1, a.2.2 - b.2.2)

/-- Scalar multiple of a vector. -/
def smulQ (c : ℚ) (a : Q3) : Q3 := (c * a.1, c * a.2.1, c * a.2.2)

/-- Dot product (`np.dot` on 3-vectors). -/
def dotQ (a b : Q3) : ℚ := a.1 * b.1 + a.2.1 * b.2.1 + a.2.2 * b.2.2

/-- Cross product (`np.cross` on 3-vectors). -/
def crossQ (a b : Q3) : Q3 :=
  (a.2.1 * b.2.2 - a.2.2 * b.2.1,
   a.2.2 * b.1 - a.1 * b.2.2,
   a.1 * b.2.1 - a.2.1 * b.1)

/-- Squared Euclidean norm; `np.linalg.norm v = Real.sqrt (normSq v)`. -/
def normSq (a : Q3) : ℚ := dotQ a a

/-- Maximum of a list of rationals; on a nonempty list this is `np.max` /
Python's `max` over the list (the `[]` case is never reached by the code,
which guards list length first). -/
def listMax : List ℚ → ℚ
  | [] => 0
  | x :: xs => xs.foldl max x

/-- Minimum of a list of rationals (`np.min` on nonempty input). -/
def listMin : List ℚ → ℚ
  | [] => 0
  | x :: xs => xs.foldl min x

theorem foldl_max_le_all (xs : List ℚ) (a : ℚ) :
    a ≤ xs.foldl max a ∧ ∀ y ∈ xs, y ≤ xs.foldl max a := by
  induction xs generalizing a with
  | nil => exact ⟨le_refl a, by intro y hy; cases hy⟩
  | cons x xs ih =>
    simp only [List.foldl_cons]
    refine ⟨le_trans (le_max_left a x) (ih (max a x)).1, ?_⟩
    intro y hy
    rcases List.mem_cons.mp hy with h | h
    · subst h
      exact le_trans (le_max_right a y) (ih (max a y)).1
    · exact (ih (max a x)).2 y h

theorem foldl_max_mem (xs : List ℚ) (a : ℚ) :
    xs.foldl max a = a ∨ xs.foldl max a ∈ xs := by
  induction xs generalizing a with
  | nil => exact Or.inl rfl
  | cons x xs ih =>
    simp only [List.foldl_cons]
    rcases ih (max a x) with h | h
    · rcases max_cases a x with ⟨h1, _⟩ | ⟨h1, _⟩
      · exact Or.inl (by rw [h, h1])
      · exact Or.inr (by rw [h, h1]; exact List.mem_cons_self x xs)
    · exact Or.inr (List.mem_cons_of_mem x h)

theorem le_listMax {l : List ℚ} {y : ℚ} (hy : y ∈ l) : y ≤ listMax l := by
  cases l with
  | nil => cases hy
  | cons x xs =>
    rcases List.mem_cons.mp hy with h | h
    · exact h ▸ (foldl_max_le_all xs x).1
    · exact (foldl_max_le_all xs x).2 y h

theorem listMax_mem {l : List ℚ} (h : l ≠ []) : listMax l ∈ l := by
  cases l with
  | nil => exact absurd rfl h
  | cons x xs =>
    rcases foldl_max_mem xs x with h1 | h1
    · exact List.mem_cons.mpr (Or.inl h1)
    · exact List.mem_cons_of_mem x h1

/-- The `cylinder_axis` argument of the Fitter (`'X' | 'Y' | 'Z'`). -/
inductive CylAxis : Type
  | X
  | Y
  | Z
deriving DecidableEq, Repr

/-- Result record of `calculate_radius_height` (lines 17-22 of the source
docstring).  `radiusSq` is the square of the source's `radius`
(`radius = Real.sqrt radiusSq`); `xAxis`, `yAxis`, `zAxis` are the basis
columns of the source's `rotation_matrix_3x3` *before* the three
`/= np.linalg.norm` normalisations (the source's column `i` is
`axis_i / Real.sqrt (normSq axis_i)`). -/
structure FitResult : Type where
  radiusSq : ℚ
  height : ℚ
  center : Q3
  xAxis : Q3
  yAxis : Q3
  zAxis : Q3
deriving DecidableEq, Repr

/-- Centroid, `np_points.mean(axis=0)`: componentwise sum divided by the
number of points. -/
def centroid (points : List Q3) : Q3 :=
  smulQ (1 / (points.length : ℚ)) (points.foldl addQ (0, 0, 0))

/-- Squared perpendicular distance of `point` to the line through
`axis_point` with direction `axis_dir` — the square of `distance_to_axis`
(source lines 52-55): `v = point - axis_point`,
`d = v - np.dot(v, axis_dir) * axis_dir`, result `‖d‖²`. -/
def perpDistSq (point axis_point axis_dir : Q3) : ℚ :=
  normSq (subQ (subQ point axis_point)
    (smulQ (dotQ (subQ point axis_point) axis_dir) axis_dir))

/-- Square of the `1e-6` tolerance of source line 74:
`np.linalg.norm y < 1e-6 ↔ normSq y < tolSq` (in exact arithmetic). -/
def tolSq : ℚ := 1 / 1000000000000

/-- The three basis vectors picked per `cylinder_axis` (source lines 61-72),
before the degenerate-`y` fallback and before normalisation. -/
def basisAxesPre (principal_axis : Q3) (cylinder_axis : CylAxis) :
    Q3 × Q3 × Q3 :=
  match cylinder_axis with
  | CylAxis.X =>
    let x_axis := principal_axis
    let y_axis := crossQ (0, 0, 1) x_axis
    let z_axis := crossQ x_axis y_axis
    (x_axis, y_axis, z_axis)
  | CylAxis.Y =>
    let y_axis := principal_axis
    let x_axis := crossQ (0, 0, 1) y_axis
    let z_axis := crossQ x_axis y_axis
    (x_axis, y_axis, z_axis)
  | CylAxis.Z =>
    let z_axis := principal_axis
    let x_axis := crossQ (0, 1, 0) z_axis
    let y_axis := crossQ z_axis x_axis
    (x_axis, y_axis, z_axis)

/-- Basis vectors after the fallback of source lines 74-75
(`if np.linalg.norm(y_axis) < 1e-6: y_axis = np.cross([0,1,0], z_axis)`),
still un-normalised. -/
def basisAxes (principal_axis : Q3) (cylinder_axis : CylAxis) :
    Q3 × Q3 × Q3 :=
  let pre := basisAxesPre principal_axis cylinder_axis
  (pre.1,
   if normSq pre.2.1 < tolSq then crossQ (0, 1, 0) pre.2.2 else pre.2.1,
   pre.2.2)

/-- Shallow embedding of `calculate_radius_height` (source lines 9-91).
`principal_axis` stands for `vh[0]`, the top right-singular vector that
`np.linalg.svd` (an external library routine) computes for the centered
point matrix.  Raising `ValueError` is modelled by `Except.error`. -/
def calculate_radius_height (points : List Q3) (cylinder_axis : CylAxis)
    (principal_axis : Q3) : Except String FitResult :=
  if points.length < 2 then
    Except.error "At least two points are required to define a capsule"
  else
    let mean := centroid points
    let projections := points.map (fun p => dotQ p principal_axis)
    let min_projection := listMin projections
    let max_projection := listMax projections
    let height := max_projection - min_projection
    let center_along_axis := (min_projection + max_projection) / 2
    let capsule_center := addQ mean (smulQ center_along_axis principal_axis)
    let radiusSq :=
      listMax (points.map (fun p => perpDistSq p mean principal_axis))
    let axes := basisAxes principal_axis cylinder_axis
    Except.ok
      { radiusSq := radiusSq
        height := height
        center := capsule_center
        xAxis := axes.1
        yAxis := axes.2.1
        zAxis := axes.2.2 }

/-! ### Algebraic helper lemmas for the Fitter -/

theorem dotQ_comm (a b : Q3) : dotQ a b = dotQ b a := by
  simp only [dotQ]; ring

theorem normSq_nonneg (a : Q3) : 0 ≤ normSq a := by
  simp only [normSq, dotQ]
  nlinarith [mul_self_nonneg a.1, mul_self_nonneg a.2.1, mul_self_nonneg a.2.2]

theorem normSq_crossQ (a b : Q3) :
    normSq (crossQ a b) = normSq a * normSq b - dotQ a b ^ 2 := by
  simp only [normSq, dotQ, crossQ]; ring

theorem dotQ_crossQ_left (a b : Q3) : dotQ a (crossQ a b) = 0 := by
  simp only [dotQ, crossQ]; ring

theorem dotQ_crossQ_right (a b : Q3) : dotQ b (crossQ a b) = 0 := by
  simp only [dotQ, crossQ]; ring

/-- If the point lies on the line through `m` with unit direction `a`
(offset a scalar multiple of `a`), its perpendicular distance to the line
vanishes. -/
theorem perpDistSq_of_parallel (p m a : Q3) (t : ℚ)
    (hunit : dotQ a a = 1) (hpar : subQ p m = smulQ t a) :
    perpDistSq p m a = 0 := by
  obtain ⟨a1, a2, a3⟩ := a
  simp only [dotQ] at hunit
  unfold perpDistSq
  rw [hpar]
  simp only [normSq, dotQ, subQ, smulQ]
  linear_combination
    (t ^ 2 * (a1 * a1 + a2 * a2 + a3 * a3) *
      (a1 * a1 + a2 * a2 + a3 * a3 - 1)) * hunit

theorem listMax_pair (x y : ℚ) : listMax [x, y] = max x y := rfl

theorem listMin_pair (x y : ℚ) : listMin [x, y] = min x y := rfl

/-! ### Fitter theorems -/

/-- C6: the Fitter raises its invalid-input error (`ValueError`, source
lines 28-29) exactly when fewer than 2 points are supplied; with 2 or more
points it returns a complete `Except.ok` result. -/
theorem fitter_error_iff_lt_two (points : List Q3) (cylinder_axis : CylAxis)
    (principal_axis : Q3) :
    (∃ e, calculate_radius_height points cylinder_axis principal_axis =
      Except.error e) ↔ points.length < 2 := by
  unfold calculate_radius_height
  split <;> simp_all

/-- C4: for any point cloud accepted by the Fitter and any unit principal
axis, every point's perpendicular distance to the line through the centroid
with that direction is at most the returned radius
(`Real.sqrt res.radiusSq`), and at least one point attains it. -/
theorem fitter_radius_max_perp (points : List Q3) (cylinder_axis : CylAxis)
    (principal_axis : Q3) (res : FitResult)
    (hunit : dotQ principal_axis principal_axis = 1)
    (h : calculate_radius_height points cylinder_axis principal_axis =
      Except.ok res) :
    (∀ p ∈ points,
      Real.sqrt ((perpDistSq p (centroid points) principal_axis : ℚ) : ℝ) ≤
        Real.sqrt ((res.radiusSq : ℚ) : ℝ)) ∧
    (∃ p ∈ points,
      Real.sqrt ((perpDistSq p (centroid points) principal_axis : ℚ) : ℝ) =
        Real.sqrt ((res.radiusSq : ℚ) : ℝ)) := by
  unfold calculate_radius_height at h
  split at h
  · exact absurd h (by simp)
  · rename_i hlen
    have hne : points ≠ [] := by
      intro hnil; rw [hnil] at hlen; simp at hlen
    have hr : res.radiusSq =
        listMax (points.map
          (fun p => perpDistSq p (centroid points) principal_axis)) := by
      cases h; rfl
    constructor
    · intro p hp
      apply Real.sqrt_le_sqrt
      rw [hr]
      exact_mod_cast le_listMax (List.mem_map_of_mem _ hp)
    · have hmem : listMax (points.map
          (fun p => perpDistSq p (centroid points) principal_axis)) ∈
          points.map (fun p => perpDistSq p (centroid points) principal_axis) :=
        listMax_mem (by simpa using hne)
      obtain ⟨p, hp, hpe⟩ := List.mem_map.mp hmem
      exact ⟨p, hp, by rw [hr, hpe]⟩

/-- C5 (code bug): evaluated at the two points `(1,0,0)` and `(3,0,0)` with
principal axis `(1,0,0)` (the direction `np.linalg.svd` yields for this
input, up to sign — the computed center is the same for either sign), the
Fitter returns center `(4,0,0)`: the code offsets the centroid by the
midpoint of the *non-centered* projections (source lines 40-49), counting
the centroid's axial component twice.  The axial projection of the input
point `(1,0,0)` is `1`, strictly below the lower interval end
`center·axis - height/2 = 4 - 1 = 3`, so the claimed containment fails. -/
theorem fitter_center_projection_bug :
    calculate_radius_height [(1, 0, 0), (3, 0, 0)] CylAxis.Z (1, 0, 0) =
      Except.ok { radiusSq := 0, height := 2, center := (4, 0, 0),
                  xAxis := (0, 0, -1), yAxis := (0, 1, 0),
                  zAxis := (1, 0, 0) } ∧
    dotQ (1, 0, 0) (1, 0, 0) < dotQ (4, 0, 0) (1, 0, 0) - 2 / 2 := by
  constructor
  · norm_num [calculate_radius_height, centroid, listMax, listMin, perpDistSq,
      normSq, dotQ, subQ, smulQ, addQ, basisAxes, basisAxesPre, crossQ, tolSq,
      Prod.ext_iff]
  · simp only [dotQ]
    norm_num

theorem normSq_eq_dot (a : Q3) : normSq a = dotQ a a := rfl

theorem normSq_smulQ (c : ℚ) (a : Q3) :
    normSq (smulQ c a) = c ^ 2 * normSq a := by
  simp only [normSq, dotQ, smulQ]; ring

/-- Characterisation of a successful Fitter call: the returned record holds
exactly the quantities computed by source lines 31-91. -/
theorem calculate_radius_height_ok (points : List Q3)
    (cylinder_axis : CylAxis) (principal_axis : Q3) (res : FitResult)
    (h : calculate_radius_height points cylinder_axis principal_axis =
      Except.ok res) :
    ¬ points.length < 2 ∧
    res = { radiusSq := listMax (points.map
              (fun p => perpDistSq p (centroid points) principal_axis)),
            height := listMax (points.map (fun p => dotQ p principal_axis)) -
              listMin (points.map (fun p => dotQ p principal_axis)),
            center := addQ (centroid points)
              (smulQ ((listMin (points.map (fun p => dotQ p principal_axis)) +
                listMax (points.map (fun p => dotQ p principal_axis))) / 2)
                principal_axis),
            xAxis := (basisAxes principal_axis cylinder_axis).1,
            yAxis := (basisAxes principal_axis cylinder_axis).2.1,
            zAxis := (basisAxes principal_axis cylinder_axis).2.2 } := by
  unfold calculate_radius_height at h
  split at h
  · exact absurd h (by simp)
  · rename_i hlen
    simp only [Except.ok.injEq] at h
    exact ⟨hlen, h.symm⟩

/-- C9 (counterexample to the claim as stated): applied to two *identical*
points the Fitter neither raises nor reports anything — it returns a normal
`Except.ok` result (with radius 0 and height 0).  The principal axis
`(1,0,0)` is what `np.linalg.svd` returns as `vh[0]` for the zero matrix of
centered points. -/
theorem fitter_identical_points_no_error :
    calculate_radius_height [(0, 0, 0), (0, 0, 0)] CylAxis.Z (1, 0, 0) =
      Except.ok { radiusSq := 0, height := 0, center := (0, 0, 0),
                  xAxis := (0, 0, -1), yAxis := (0, 1, 0),
                  zAxis := (1, 0, 0) } := by
  norm_num [calculate_radius_height, centroid, listMax, listMin, perpDistSq,
    normSq, dotQ, subQ, smulQ, addQ, basisAxes, basisAxesPre, crossQ, tolSq,
    Prod.ext_iff]

/-- C9 (amended): a two-point cloud whose difference is the scalar multiple
`c` of the unit principal axis is fitted with squared radius exactly `0` and
non-negative height whose square is the squared distance of the two points
(so `radius = 0` and `height` is their distance); for two identical points
the height is `0`.  No error is raised in either case. -/
theorem fitter_two_point_capsule (p q a : Q3) (c : ℚ)
    (cylinder_axis : CylAxis) (res : FitResult)
    (hunit : dotQ a a = 1) (hpar : subQ q p = smulQ c a)
    (h : calculate_radius_height [p, q] cylinder_axis a = Except.ok res) :
    res.radiusSq = 0 ∧ 0 ≤ res.height ∧
      res.height ^ 2 = normSq (subQ q p) ∧ (p = q → res.height = 0) := by
  obtain ⟨-, hres⟩ := calculate_radius_height_ok _ _ _ _ h
  subst hres
  have hpar3 : (q.1 - p.1 = c * a.1 ∧ q.2.1 - p.2.1 = c * a.2.1 ∧
      q.2.2 - p.2.2 = c * a.2.2) := by
    simpa [subQ, smulQ, Prod.ext_iff] using hpar
  obtain ⟨hp1, hp2, hp3⟩ := hpar3
  simp only [dotQ] at hunit
  have hmp : subQ p (centroid [p, q]) = smulQ (-(c / 2)) a := by
    simp only [centroid, addQ, smulQ, subQ, List.foldl, List.length_cons,
      List.length_nil, Prod.ext_iff]
    norm_num
    refine ⟨by linear_combination (-(1 : ℚ) / 2) * hp1,
      by linear_combination (-(1 : ℚ) / 2) * hp2,
      by linear_combination (-(1 : ℚ) / 2) * hp3⟩
  have hmq : subQ q (centroid [p, q]) = smulQ (c / 2) a := by
    simp only [centroid, addQ, smulQ, subQ, List.foldl, List.length_cons,
      List.length_nil, Prod.ext_iff]
    norm_num
    refine ⟨by linear_combination ((1 : ℚ) / 2) * hp1,
      by linear_combination ((1 : ℚ) / 2) * hp2,
      by linear_combination ((1 : ℚ) / 2) * hp3⟩
  have hproj : dotQ q a = dotQ p a + c := by
    simp only [dotQ]
    linear_combination a.1 * hp1 + a.2.1 * hp2 + a.2.2 * hp3 +
      c * hunit
  have hrad : listMax (List.map
      (fun pt => perpDistSq pt (centroid [p, q]) a) [p, q]) = 0 := by
    simp only [List.map]
    rw [perpDistSq_of_parallel p (centroid [p, q]) a (-(c / 2))
        (by simp only [dotQ]; exact hunit) hmp,
      perpDistSq_of_parallel q (centroid [p, q]) a (c / 2)
        (by simp only [dotQ]; exact hunit) hmq]
    simp [listMax_pair]
  have hnormqp : normSq (subQ q p) = c ^ 2 := by
    rw [hpar, normSq_smulQ, normSq_eq_dot]
    simp only [dotQ]
    rw [hunit, mul_one]
  have hmaxmin : listMax (List.map (fun pt => dotQ pt a) [p, q]) -
      listMin (List.map (fun pt => dotQ pt a) [p, q]) = |c| := by
    simp only [List.map, listMax_pair, listMin_pair, hproj]
    rcases le_total 0 c with hc | hc
    · rw [max_eq_right (by linarith), min_eq_left (by linarith),
        abs_of_nonneg hc]
      ring
    · rw [max_eq_left (by linarith), min_eq_right (by linarith),
        abs_of_nonpos hc]
      ring
  refine ⟨hrad, ?_, ?_, ?_⟩
  · simp only [hmaxmin]
    exact abs_nonneg c
  · simp only [hmaxmin, hnormqp, sq_abs]
  · intro hpq
    subst hpq
    have hc0 : c = 0 := by
      have h1 : c * a.1 = 0 := by linarith [hp1]
      have h2 : c * a.2.1 = 0 := by linarith [hp2]
      have h3 : c * a.2.2 = 0 := by linarith [hp3]
      nlinarith [h1, h2, h3, hunit]
    simp only [hmaxmin, hc0, abs_zero]

/-- The cross product of the fixed reference axis with the principal axis
that the basis construction uses first (`[0,0,1]` for hints `X`/`Y`,
`[0,1,0]` for hint `Z`); the construction is degenerate exactly when this
vector is (near) zero, i.e. when the principal axis is (near) parallel to
that reference axis. -/
def refCross (principal_axis : Q3) : CylAxis → Q3
  | CylAxis.X => crossQ (0, 0, 1) principal_axis
  | CylAxis.Y => crossQ (0, 0, 1) principal_axis
  | CylAxis.Z => crossQ (0, 1, 0) principal_axis

/-- The source's normalised column `u / np.linalg.norm u` has unit length:
sum of squared components of `u / Real.sqrt (normSq u)` equals 1. -/
def IsUnitNormalized (u : Q3) : Prop :=
  ((u.1 : ℝ) / Real.sqrt ((normSq u : ℚ) : ℝ)) ^ 2 +
    ((u.2.1 : ℝ) / Real.sqrt ((normSq u : ℚ) : ℝ)) ^ 2 +
    ((u.2.2 : ℝ) / Real.sqrt ((normSq u : ℚ) : ℝ)) ^ 2 = 1

/-- The dot product of the two normalised columns vanishes. -/
def IsOrthoNormalized (u w : Q3) : Prop :=
  ((u.1 : ℝ) / Real.sqrt ((normSq u : ℚ) : ℝ)) *
      ((w.1 : ℝ) / Real.sqrt ((normSq w : ℚ) : ℝ)) +
    ((u.2.1 : ℝ) / Real.sqrt ((normSq u : ℚ) : ℝ)) *
      ((w.2.1 : ℝ) / Real.sqrt ((normSq w : ℚ) : ℝ)) +
    ((u.2.2 : ℝ) / Real.sqrt ((normSq u : ℚ) : ℝ)) *
      ((w.2.2 : ℝ) / Real.sqrt ((normSq w : ℚ) : ℝ)) = 0

theorem isUnitNormalized_of_pos (u : Q3) (hu : 0 < normSq u) :
    IsUnitNormalized u := by
  unfold IsUnitNormalized
  have hs : (0 : ℝ) < ((normSq u : ℚ) : ℝ) := by exact_mod_cast hu
  have hsq : Real.sqrt ((normSq u : ℚ) : ℝ) ^ 2 = ((normSq u : ℚ) : ℝ) :=
    Real.sq_sqrt hs.le
  rw [div_pow, div_pow, div_pow, div_add_div_same, div_add_div_same, hsq,
    div_eq_one_iff_eq (ne_of_gt hs)]
  have : normSq u = u.1 * u.1 + u.2.1 * u.2.1 + u.2.2 * u.2.2 := rfl
  rw [this]
  push_cast
  ring

theorem isOrthoNormalized_of_dot (u w : Q3) (huw : dotQ u w = 0) :
    IsOrthoNormalized u w := by
  unfold IsOrthoNormalized
  rw [div_mul_div_comm, div_mul_div_comm, div_mul_div_comm,
    div_add_div_same, div_add_div_same]
  have h0 : (u.1 : ℝ) * (w.1 : ℝ) + (u.2.1 : ℝ) * (w.2.1 : ℝ) +
      (u.2.2 : ℝ) * (w.2.2 : ℝ) = 0 := by
    have := huw
    simp only [dotQ] at this
    exact_mod_cast congrArg (fun x : ℚ => (x : ℝ)) this
  rw [h0, zero_div]

/-- Non-degeneracy and exact pairwise orthogonality of the (un-normalised)
basis columns built by source lines 61-78, assuming a unit principal axis
not near-parallel to the fixed reference axis of the chosen branch. -/
theorem basisAxes_props (a : Q3) (cylinder_axis : CylAxis)
    (hunit : dotQ a a = 1)
    (href : tolSq ≤ normSq (refCross a cylinder_axis)) :
    0 < normSq (basisAxes a cylinder_axis).1 ∧
    0 < normSq (basisAxes a cylinder_axis).2.1 ∧
    0 < normSq (basisAxes a cylinder_axis).2.2 ∧
    dotQ (basisAxes a cylinder_axis).1 (basisAxes a cylinder_axis).2.1 = 0 ∧
    dotQ (basisAxes a cylinder_axis).1 (basisAxes a cylinder_axis).2.2 = 0 ∧
    dotQ (basisAxes a cylinder_axis).2.1 (basisAxes a cylinder_axis).2.2
      = 0 := by
  have htol : (0 : ℚ) < tolSq := by norm_num [tolSq]
  have hpos : (0 : ℚ) < normSq (refCross a cylinder_axis) :=
    lt_of_lt_of_le htol href
  cases cylinder_axis with
  | X =>
    simp only [refCross] at href hpos
    simp only [basisAxes, basisAxesPre]
    rw [if_neg (not_lt.mpr href)]
    refine ⟨?_, hpos, ?_, dotQ_crossQ_right _ _, dotQ_crossQ_left _ _,
      dotQ_crossQ_right _ _⟩
    · rw [normSq_eq_dot, hunit]; norm_num
    · rw [normSq_crossQ, dotQ_crossQ_right, normSq_eq_dot a, hunit]
      nlinarith [hpos]
  | Y =>
    simp only [refCross] at href hpos
    simp only [basisAxes, basisAxesPre]
    rw [if_neg (by rw [not_lt, normSq_eq_dot, hunit]; norm_num [tolSq])]
    have hxy : dotQ (crossQ (0, 0, 1) a) a = 0 := by
      rw [dotQ_comm]; exact dotQ_crossQ_right _ _
    refine ⟨hpos, ?_, ?_, hxy, dotQ_crossQ_left _ _, dotQ_crossQ_right _ _⟩
    · rw [normSq_eq_dot, hunit]; norm_num
    · rw [normSq_crossQ, hxy, normSq_eq_dot a, hunit]
      nlinarith [hpos]
  | Z =>
    simp only [refCross] at href hpos
    simp only [basisAxes, basisAxesPre]
    have hax : dotQ a (crossQ (0, 1, 0) a) = 0 := dotQ_crossQ_right _ _
    have hny : normSq (crossQ a (crossQ (0, 1, 0) a)) =
        normSq (crossQ (0, 1, 0) a) := by
      rw [normSq_crossQ, hax, normSq_eq_dot a, hunit]; ring
    rw [if_neg (by rw [not_lt, hny]; exact href)]
    have hyz : dotQ (crossQ a (crossQ (0, 1, 0) a)) a = 0 := by
      rw [dotQ_comm]; exact dotQ_crossQ_left _ _
    have hxz : dotQ (crossQ (0, 1, 0) a) a = 0 := by
      rw [dotQ_comm]; exact hax
    refine ⟨hpos, ?_, ?_, dotQ_crossQ_right _ _, hxz, hyz⟩
    · rw [hny]; exact hpos
    · rw [normSq_eq_dot, hunit]; norm_num

/-- C8: for any accepted point cloud, unit principal axis not near-parallel
to the branch's fixed reference axis, and any axis hint, the three columns
of the rotation matrix returned by the Fitter (the returned basis vectors,
each divided by its norm as in source lines 76-84) are orthonormal: unit
length and pairwise zero dot products. -/
theorem fitter_basis_orthonormal (points : List Q3)
    (cylinder_axis : CylAxis) (principal_axis : Q3) (res : FitResult)
    (hunit : dotQ principal_axis principal_axis = 1)
    (href : tolSq ≤ normSq (refCross principal_axis cylinder_axis))
    (h : calculate_radius_height points cylinder_axis principal_axis =
      Except.ok res) :
    IsUnitNormalized res.xAxis ∧ IsUnitNormalized res.yAxis ∧
    IsUnitNormalized res.zAxis ∧
    IsOrthoNormalized res.xAxis res.yAxis ∧
    IsOrthoNormalized res.xAxis res.zAxis ∧
    IsOrthoNormalized res.yAxis res.zAxis := by
  obtain ⟨-, hres⟩ := calculate_radius_height_ok _ _ _ _ h
  subst hres
  obtain ⟨hx, hy, hz, hxy, hxz, hyz⟩ :=
    basisAxes_props principal_axis cylinder_axis hunit href
  exact ⟨isUnitNormalized_of_pos _ hx, isUnitNormalized_of_pos _ hy,
    isUnitNormalized_of_pos _ hz, isOrthoNormalized_of_dot _ _ hxy,
    isOrthoNormalized_of_dot _ _ hxz, isOrthoNormalized_of_dot _ _ hyz⟩

/-- Witness for C4 at a concrete three-point cloud. -/
theorem fitter_radius_max_perp_witness :
    (∀ p ∈ ([(0, 0, 0), (2, 0, 0), (1, 1, 0)] : List Q3),
      Real.sqrt ((perpDistSq p
          (centroid [(0, 0, 0), (2, 0, 0), (1, 1, 0)]) (1, 0, 0) : ℚ) : ℝ) ≤
        Real.sqrt (((4 / 9 : ℚ) : ℝ))) ∧
    (∃ p ∈ ([(0, 0, 0), (2, 0, 0), (1, 1, 0)] : List Q3),
      Real.sqrt ((perpDistSq p
          (centroid [(0, 0, 0), (2, 0, 0), (1, 1, 0)]) (1, 0, 0) : ℚ) : ℝ) =
        Real.sqrt (((4 / 9 : ℚ) : ℝ))) :=
  fitter_radius_max_perp [(0, 0, 0), (2, 0, 0), (1, 1, 0)] CylAxis.Z
    (1, 0, 0)
    { radiusSq := 4 / 9, height := 2, center := (2, 1 / 3, 0),
      xAxis := (0, 0, -1), yAxis := (0, 1, 0), zAxis := (1, 0, 0) }
    (by norm_num [dotQ])
    (by norm_num [calculate_radius_height, centroid, listMax, listMin,
      perpDistSq, normSq, dotQ, subQ, smulQ, addQ, basisAxes, basisAxesPre,
      crossQ, tolSq, Prod.ext_iff])

/-- Witness for the amended C9 at two distinct points at distance 5. -/
theorem fitter_two_point_capsule_witness :
    (0 : ℚ) = 0 ∧ (0 : ℚ) ≤ 5 ∧
      (5 : ℚ) ^ 2 = normSq (subQ (3, 4, 0) (0, 0, 0)) ∧
      (((0, 0, 0) : Q3) = (3, 4, 0) → (5 : ℚ) = 0) :=
  fitter_two_point_capsule (0, 0, 0) (3, 4, 0) (3 / 5, 4 / 5, 0) 5
    CylAxis.Z
    { radiusSq := 0, height := 5, center := (3, 4, 0),
      xAxis := (0, 0, -3 / 5), yAxis := (-12 / 25, 9 / 25, 0),
      zAxis := (3 / 5, 4 / 5, 0) }
    (by norm_num [dotQ])
    (by norm_num [subQ, smulQ, Prod.ext_iff])
    (by norm_num [calculate_radius_height, centroid, listMax, listMin,
      perpDistSq, normSq, dotQ, subQ, smulQ, addQ, basisAxes, basisAxesPre,
      crossQ, tolSq, Prod.ext_iff])

/-- Witness for C8 at a concrete two-point cloud with principal axis X and
hint Z. -/
theorem fitter_basis_orthonormal_witness :
    IsUnitNormalized ((0, 0, -1) : Q3) ∧
    IsUnitNormalized ((0, 1, 0) : Q3) ∧
    IsUnitNormalized ((1, 0, 0) : Q3) ∧
    IsOrthoNormalized ((0, 0, -1) : Q3) ((0, 1, 0) : Q3) ∧
    IsOrthoNormalized ((0, 0, -1) : Q3) ((1, 0, 0) : Q3) ∧
    IsOrthoNormalized ((0, 1, 0) : Q3) ((1, 0, 0) : Q3) :=
  fitter_basis_orthonormal [(0, 0, 0), (1, 0, 0)] CylAxis.Z (1, 0, 0)
    { radiusSq := 0, height := 1, center := (1, 0, 0),
      xAxis := (0, 0, -1), yAxis := (0, 1, 0), zAxis := (1, 0, 0) }
    (by norm_num [dotQ])
    (by norm_num [refCross, crossQ, normSq, dotQ, tolSq])
    (by norm_num [calculate_radius_height, centroid, listMax, listMin,
      perpDistSq, normSq, dotQ, subQ, smulQ, addQ, basisAxes, basisAxesPre,
      crossQ, tolSq, Prod.ext_iff])

/-! ### Capsule Mesh Builder (`create_capsule_data`, source lines 153-557)

The imperative function allocates six flat lists and fills disjoint index
regions of each in several loops.  The embedding below reproduces each
buffer as the concatenation of those regions in increasing index order;
each region's element formula is read off the corresponding loop body, and
the offset constants keep the source's names and defining expressions
(source lines 193-225).  All Python `int` arithmetic is over `ℤ`. -/

/-- A 2D texture coordinate. -/
abbrev Q2 : Type := ℚ × ℚ

/-- The `uv_profile` argument (`"FIXED" | "ASPECT" | "UNIFORM"`). -/
inductive UVProfile : Type
  | FIXED
  | ASPECT
  | UNIFORM
deriving DecidableEq, Repr

/-- Output record of `create_capsule_data` (the dictionary of source lines
552-557). -/
structure CapsuleData : Type where
  vs : List Q3
  vts : List Q2
  vns : List Q3
  v_indices : List (List ℤ)
  vt_indices : List (List ℤ)
  vn_indices : List (List ℤ)
deriving DecidableEq, Repr

/-- Source line 171: `verif_rad = max(0.0001, radius)`. -/
def verif_rad (radius : ℚ) : ℚ := max (1 / 10000) radius

/-- Source line 172: `verif_depth = max(0.0002, depth)`. -/
def verif_depth (depth : ℚ) : ℚ := max (2 / 10000) depth

/-- Source line 173: `verif_rings = max(0, rings)`. -/
def verif_rings (rings : ℤ) : ℤ := max 0 rings

/-- Source line 174: `verif_lons = max(3, longitudes)`. -/
def verif_lons (longitudes : ℤ) : ℤ := max 3 longitudes

/-- Source lines 177-179: `verif_lats = max(2, latitudes)`, then `+1` if
odd. -/
def verif_lats (latitudes : ℤ) : ℤ :=
  let v := max 2 latitudes
  if v % 2 ≠ 0 then v + 1 else v

/-- Coordinate index offsets, source lines 193-200.  Arguments are the
already-validated `verif_lons` (`L`), `half_lats` (`hl`) and `verif_rings`
(`r`); `calc_middle = 0 < r`. -/
def idx_v_n_equator (L hl : ℤ) : ℤ := (L + 1) + L * (hl - 2)

def idx_v_cyl (L hl : ℤ) : ℤ := idx_v_n_equator L hl + L

def idx_v_s_equator (L hl r : ℤ) : ℤ :=
  if 0 < r then idx_v_cyl L hl + L * r else idx_v_cyl L hl

def idx_v_south (L hl r : ℤ) : ℤ := idx_v_s_equator L hl r + L

def idx_v_south_cap (L hl r : ℤ) : ℤ := idx_v_south L hl r + L * (hl - 2)

def idx_v_south_pole (L hl r : ℤ) : ℤ := idx_v_south_cap L hl r + L

/-- Texture coordinate index offsets, source lines 202-209. -/
def idx_vt_n_equator (L hl : ℤ) : ℤ := L + (L + 1) * (hl - 1)

def idx_vt_cyl (L hl : ℤ) : ℤ := idx_vt_n_equator L hl + (L + 1)

def idx_vt_s_equator (L hl r : ℤ) : ℤ :=
  if 0 < r then idx_vt_cyl L hl + (L + 1) * r else idx_vt_cyl L hl

def idx_vt_s_hemi (L hl r : ℤ) : ℤ := idx_vt_s_equator L hl r + (L + 1)

def idx_vt_s_polar (L hl r : ℤ) : ℤ :=
  idx_vt_s_hemi L hl r + (L + 1) * (hl - 2)

def idx_vt_s_cap (L hl r : ℤ) : ℤ := idx_vt_s_polar L hl r + (L + 1)

/-- Normal index offsets, source lines 211-214. -/
def idx_vn_south (L hl : ℤ) : ℤ := idx_v_n_equator L hl + L

def idx_vn_south_cap (L hl : ℤ) : ℤ := idx_vn_south L hl + L * (hl - 2)

def idx_vn_south_pole (L hl : ℤ) : ℤ := idx_vn_south_cap L hl + L

/-- Face index offsets, source lines 216-219
(`v_lons_half_lat_n1 = (hl - 1) * L`, `v_lons_v_sections_p1 = (r + 1) * L`). -/
def idx_fs_cyl (L hl : ℤ) : ℤ := L + (hl - 1) * L

def idx_fs_south_equat (L hl r : ℤ) : ℤ := idx_fs_cyl L hl + (r + 1) * L

def idx_fs_south_hemi (L hl r : ℤ) : ℤ :=
  idx_fs_south_equat L hl r + (hl - 1) * L

/-- List lengths, source lines 221-225. -/
def len_vs (L hl r : ℤ) : ℤ := idx_v_south_pole L hl r + 1

def len_vts (L hl r : ℤ) : ℤ := idx_vt_s_cap L hl r + L

def len_vns (L hl : ℤ) : ℤ := idx_vn_south_pole L hl + L

def len_indices (L hl r : ℤ) : ℤ := idx_fs_south_hemi L hl r + L

/-- One ring's worth of entries: `for j in range(0, n)` producing `f j`. -/
def ringL {α : Type} (n : ℕ) (f : ℕ → α) : List α := (List.range n).map f

/-- A grid of entries: outer loop `i < m`, inner loop `j < n`, row-major
(the order in which the source loops advance their write offsets). -/
def gridL {α : Type} (m n : ℕ) (f : ℕ → ℕ → α) : List α :=
  (List.range m).flatMap (fun i => ringL n (f i))

/-- Source's `j_next_v = (j + 1) % verif_lons`. -/
def jnv (Ln j : ℕ) : ℕ := (j + 1) % Ln

/-- North triangle fan tuple, source lines 287/289:
`(0, j_next_vt, 1 + j_next_v)` — used both for `v_indices` and
`vn_indices`. -/
def northFanFace (Ln j : ℕ) : List ℤ := [0, (j : ℤ) + 1, 1 + (jnv Ln j : ℤ)]

/-- Quad tuple `(curr + j, next + j, next + j_next_v, curr + j_next_v)`,
the shape of source lines 417-421, 438-442, 452-456 and 529-533. -/
def quadFace (curr next : ℤ) (Ln j : ℕ) : List ℤ :=
  [curr + (j : ℤ), next + (j : ℤ), next + (jnv Ln j : ℤ),
   curr + (jnv Ln j : ℤ)]

/-- Texture quad tuple `(curr + j, next + j, next + j + 1, curr + j + 1)`
(`j_next_vt = j + 1`; the UV seam does not wrap), source lines 424-428,
445-449 and 536-540. -/
def quadFaceSeam (curr next : ℤ) (j : ℕ) : List ℤ :=
  [curr + (j : ℤ), next + (j : ℤ), next + ((j : ℤ) + 1),
   curr + ((j : ℤ) + 1)]

/-- Cylinder normal quad: all four entries reference the shared equator
normal ring, source lines 543-547. -/
def cylQuadFaceVN (eqOff : ℤ) (Ln j : ℕ) : List ℤ :=
  [eqOff + (j : ℤ), eqOff + (j : ℤ), eqOff + (jnv Ln j : ℤ),
   eqOff + (jnv Ln j : ℤ)]

/-- South triangle fan tuple `(pole, cap + j_next_v, cap + j)`, source
lines 292-295 and 302-305. -/
def southFanFace (pole cap : ℤ) (Ln j : ℕ) : List ℤ :=
  [pole, cap + (jnv Ln j : ℤ), cap + (j : ℤ)]

/-- South polar texture fan tuple `(cap + j, polar + j_next_vt, polar + j)`,
source lines 297-300. -/
def southFanFaceVT (cap polar : ℤ) (j : ℕ) : List ℤ :=
  [cap + (j : ℤ), polar + ((j : ℤ) + 1), polar + (j : ℤ)]

/-- The `v_indices` buffer: north fans (indices `[0, L)`), north hemisphere
quads (`[L, idx_fs_cyl)`, written with offset `v_curr_lat_n = 1 + i*L`),
cylinder quads (`[idx_fs_cyl, idx_fs_south_equat)`, offset
`v_curr_ring = idx_v_n_equator + m*L`), south hemisphere quads
(`[idx_fs_south_equat, idx_fs_south_hemi)`, offset
`v_curr_lat_s = idx_v_s_equator + i*L`) and south fans
(`[idx_fs_south_hemi, len_indices)`). -/
def capsule_v_indices (L hl r : ℤ) : List (List ℤ) :=
  let Ln := L.toNat
  let hn := (hl - 1).toNat
  let rn := r.toNat
  ringL Ln (fun j => northFanFace Ln j) ++
  gridL hn Ln (fun i j =>
    quadFace (1 + (i : ℤ) * L) (1 + (i : ℤ) * L + L) Ln j) ++
  gridL (rn + 1) Ln (fun m j =>
    quadFace (idx_v_n_equator L hl + (m : ℤ) * L)
      (idx_v_n_equator L hl + (m : ℤ) * L + L) Ln j) ++
  gridL hn Ln (fun i j =>
    quadFace (idx_v_s_equator L hl r + (i : ℤ) * L)
      (idx_v_s_equator L hl r + (i : ℤ) * L + L) Ln j) ++
  ringL Ln (fun j =>
    southFanFace (idx_v_south_pole L hl r) (idx_v_south_cap L hl r) Ln j)

/-- The `vt_indices` buffer (offsets `vt_curr_lat_n = L + i*(L+1)`,
`vt_curr_ring = idx_vt_n_equator + m*(L+1)`,
`vt_curr_lat_s = idx_vt_s_equator + i*(L+1)`). -/
def capsule_vt_indices (L hl r : ℤ) : List (List ℤ) :=
  let Ln := L.toNat
  let hn := (hl - 1).toNat
  let rn := r.toNat
  ringL Ln (fun j => [(j : ℤ), L + (j : ℤ), L + ((j : ℤ) + 1)]) ++
  gridL hn Ln (fun i j =>
    quadFaceSeam (L + (i : ℤ) * (L + 1)) (L + (i : ℤ) * (L + 1) + (L + 1))
      j) ++
  gridL (rn + 1) Ln (fun m j =>
    quadFaceSeam (idx_vt_n_equator L hl + (m : ℤ) * (L + 1))
      (idx_vt_n_equator L hl + (m : ℤ) * (L + 1) + (L + 1)) j) ++
  gridL hn Ln (fun i j =>
    quadFaceSeam (idx_vt_s_equator L hl r + (i : ℤ) * (L + 1))
      (idx_vt_s_equator L hl r + (i : ℤ) * (L + 1) + (L + 1)) j) ++
  ringL Ln (fun j =>
    southFanFaceVT (idx_vt_s_cap L hl r) (idx_vt_s_polar L hl r) j)

/-- The `vn_indices` buffer (offsets `vn_curr_lat_n = 1 + i*L`, shared
equator ring `idx_v_n_equator` for all cylinder quads, and
`vn_curr_lat_s = idx_v_n_equator + i*L`). -/
def capsule_vn_indices (L hl r : ℤ) : List (List ℤ) :=
  let Ln := L.toNat
  let hn := (hl - 1).toNat
  let rn := r.toNat
  ringL Ln (fun j => northFanFace Ln j) ++
  gridL hn Ln (fun i j =>
    quadFace (1 + (i : ℤ) * L) (1 + (i : ℤ) * L + L) Ln j) ++
  gridL (rn + 1) Ln (fun _ j => cylQuadFaceVN (idx_v_n_equator L hl) Ln j) ++
  gridL hn Ln (fun i j =>
    quadFace (idx_v_n_equator L hl + (i : ℤ) * L)
      (idx_v_n_equator L hl + (i : ℤ) * L + L) Ln j) ++
  ringL Ln (fun j =>
    southFanFace (idx_vn_south_pole L hl) (idx_vn_south_cap L hl) Ln j)

/-- The vertex buffer `vs`: north pole, north hemisphere rings (lines
388-391), north equator (line 280), interpolated cylinder rings (lines
497-506, `fac = m / (r+1)` for `m = 1..r`, applied to the equator entries),
south equator (line 281), south hemisphere rings (lines 394-397), south
pole.  `st j = (sin θ_j, cos θ_j)` with `θ_j = j*(tau/L)`;
`sp i = (sin φ_{i+1}, cos φ_{i+1})` with `φ_{i+1} = (i+1)*(pi/lats)`
(the `sin_phi_south`/`cos_phi_south` of line 342-343). -/
def capsule_vs (st sp : ℕ → ℚ × ℚ) (L hl r : ℤ)
    (rad half_depth summit : ℚ) : List Q3 :=
  let Ln := L.toNat
  let hn := (hl - 1).toNat
  let rn := r.toNat
  [((0 : ℚ), 0, summit)] ++
  gridL hn Ln (fun i j =>
    let sin_phi_south := (sp i).1
    let cos_phi_south := (sp i).2
    let sin_phi_north := -cos_phi_south
    let cos_phi_north := sin_phi_south
    let rho_cos_phi_north := rad * cos_phi_north
    let rho_sin_phi_north := rad * sin_phi_north
    let offset_z_north := half_depth - rho_sin_phi_north
    (rho_cos_phi_north * (st j).2, rho_cos_phi_north * (st j).1,
     offset_z_north)) ++
  ringL Ln (fun j => (rad * (st j).2, rad * (st j).1, half_depth)) ++
  gridL rn Ln (fun m j =>
    let fac := ((m : ℚ) + 1) * (1 / ((r : ℚ) + 1))
    let cmpl_fac := 1 - fac
    let v_equator_north : Q3 := (rad * (st j).2, rad * (st j).1, half_depth)
    let v_equator_south : Q3 :=
      (rad * (st j).2, rad * (st j).1, -half_depth)
    (v_equator_north.1 * cmpl_fac + v_equator_south.1 * fac,
     v_equator_north.2.1 * cmpl_fac + v_equator_south.2.1 * fac,
     v_equator_north.2.2 * cmpl_fac + v_equator_south.2.2 * fac)) ++
  ringL Ln (fun j => (rad * (st j).2, rad * (st j).1, -half_depth)) ++
  gridL hn Ln (fun i j =>
    let sin_phi_south := (sp i).1
    let cos_phi_south := (sp i).2
    let rho_cos_phi_south := rad * cos_phi_south
    let rho_sin_phi_south := rad * sin_phi_south
    let offset_z_south := -half_depth - rho_sin_phi_south
    (rho_cos_phi_south * (st j).2, rho_cos_phi_south * (st j).1,
     offset_z_south)) ++
  [((0 : ℚ), 0, -summit)]

/-- The south-equator texture V value per `uv_profile` (source lines
311-315); `lat` is `verif_lats`, `hl` is `half_lats`, `r` is
`verif_rings`. -/
def vt_aspect_south (uv_profile : UVProfile) (rad depth : ℚ)
    (hl r lat : ℤ) : ℚ :=
  match uv_profile with
  | UVProfile.FIXED => 1 / 3
  | UVProfile.ASPECT => rad / (depth + 2 * rad)
  | UVProfile.UNIFORM => (hl : ℚ) / ((r : ℚ) + 1 + (lat : ℚ))

/-- The texture buffer `vts`: north polar fan row (line 272), north
hemisphere rows (line 471, `t_tex_north = 1*(1-t) + t*aspN`), north equator
row (line 321), interpolated cylinder rows (line 511), south equator row
(line 322), south hemisphere rows (line 472, `t_tex_south = aspS*(1-t)`),
south polar cap row (line 273).  `aspS` is `vt_aspect_south`,
`aspN = 1 - aspS` (line 316); `s_tex = j/L`, polar `s_tex = (j+1/2)/L`. -/
def capsule_vts (L hl r : ℤ) (aspS : ℚ) : List Q2 :=
  let Ln := L.toNat
  let hn := (hl - 1).toNat
  let rn := r.toNat
  let aspN := 1 - aspS
  ringL Ln (fun j => (((j : ℚ) + 1 / 2) * (1 / (L : ℚ)), 1)) ++
  gridL hn (Ln + 1) (fun i j =>
    let t_tex_fac := ((i : ℚ) + 1) * (1 / (hl : ℚ))
    ((j : ℚ) * (1 / (L : ℚ)), 1 * (1 - t_tex_fac) + t_tex_fac * aspN)) ++
  ringL (Ln + 1) (fun j => ((j : ℚ) * (1 / (L : ℚ)), aspN)) ++
  gridL rn (Ln + 1) (fun m j =>
    let fac := ((m : ℚ) + 1) * (1 / ((r : ℚ) + 1))
    let cmpl_fac := 1 - fac
    ((j : ℚ) * (1 / (L : ℚ)), aspN * cmpl_fac + aspS * fac)) ++
  ringL (Ln + 1) (fun j => ((j : ℚ) * (1 / (L : ℚ)), aspS)) ++
  gridL hn (Ln + 1) (fun i j =>
    let t_tex_fac := ((i : ℚ) + 1) * (1 / (hl : ℚ))
    ((j : ℚ) * (1 / (L : ℚ)), aspS * (1 - t_tex_fac) + t_tex_fac * 0)) ++
  ringL Ln (fun j => (((j : ℚ) + 1 / 2) * (1 / (L : ℚ)), 0))

/-- The normal buffer `vns`: north pole (line 247), north hemisphere rings
(lines 400-403), shared equator ring (line 284), south hemisphere rings
(lines 406-409), south pole (line 248) — and `L - 1` trailing entries that
stay at the allocation default `(0,0,1)` of line 230, because line 224
allocates `idx_vn_south_pole + verif_lons` entries while the fills stop at
`idx_vn_south_pole`. -/
def capsule_vns (st sp : ℕ → ℚ × ℚ) (L hl : ℤ) : List Q3 :=
  let Ln := L.toNat
  let hn := (hl - 1).toNat
  [((0 : ℚ), 0, 1)] ++
  gridL hn Ln (fun i j =>
    let sin_phi_south := (sp i).1
    let cos_phi_south := (sp i).2
    let sin_phi_north := -cos_phi_south
    let cos_phi_north := sin_phi_south
    (cos_phi_north * (st j).2, cos_phi_north * (st j).1, -sin_phi_north)) ++
  ringL Ln (fun j => ((st j).2, (st j).1, (0 : ℚ))) ++
  gridL hn Ln (fun i j =>
    let sin_phi_south := (sp i).1
    let cos_phi_south := (sp i).2
    (cos_phi_south * (st j).2, cos_phi_south * (st j).1, -sin_phi_south)) ++
  [((0 : ℚ), 0, -1)] ++
  List.replicate (Ln - 1) ((0 : ℚ), 0, 1)

/-- Shallow embedding of `create_capsule_data` (source lines 153-557).
`sinCosTheta`/`sinCosPhi` are the azimuth/colatitude `(sin, cos)` oracles
described in the header comment. -/
def create_capsule_data (sinCosTheta sinCosPhi : ℕ → ℚ × ℚ)
    (longitudes latitudes rings : ℤ) (depth radius : ℚ)
    (uv_profile : UVProfile) : CapsuleData :=
  let rad := verif_rad radius
  let dep := verif_depth depth
  let r := verif_rings rings
  let L := verif_lons longitudes
  let lat := verif_lats latitudes
  let half_lats := lat / 2
  let half_depth := dep * (1 / 2)
  let summit := half_depth + rad
  let aspS := vt_aspect_south uv_profile rad dep half_lats r lat
  { vs := capsule_vs sinCosTheta sinCosPhi L half_lats r rad half_depth
      summit
    vts := capsule_vts L half_lats r aspS
    vns := capsule_vns sinCosTheta sinCosPhi L half_lats
    v_indices := capsule_v_indices L half_lats r
    vt_indices := capsule_vt_indices L half_lats r
    vn_indices := capsule_vn_indices L half_lats r }

/-! ### Buffer length lemmas -/

theorem length_ringL {α : Type} (n : ℕ) (f : ℕ → α) :
    (ringL n f).length = n := by
  simp [ringL]

theorem length_gridL {α : Type} (m n : ℕ) (f : ℕ → ℕ → α) :
    (gridL m n f).length = m * n := by
  simp only [gridL, List.length_flatMap]
  have h1 : List.map (List.length ∘ fun i => ringL n (f i))
      (List.range m) = List.map (fun _ => n) (List.range m) := by
    apply List.map_congr_left
    intro a _
    simp [length_ringL]
  rw [h1]
  induction m with
  | zero => simp
  | succ k ih => rw [List.range_succ]; simp [ih]; ring

theorem verif_lons_ge (x : ℤ) : 3 ≤ verif_lons x := le_max_left 3 x

theorem verif_rings_nonneg (x : ℤ) : 0 ≤ verif_rings x := le_max_left 0 x

theorem verif_lats_ge (x : ℤ) : 2 ≤ verif_lats x := by
  have h : 2 ≤ max 2 x := le_max_left 2 x
  unfold verif_lats
  dsimp only
  split <;> omega

theorem verif_lats_even (x : ℤ) : verif_lats x % 2 = 0 := by
  unfold verif_lats
  dsimp only
  split <;> omega

theorem len_vs_closed (L hl r : ℤ) (hr : 0 ≤ r) :
    len_vs L hl r = 2 + L * (2 * hl + r) := by
  unfold len_vs idx_v_south_pole idx_v_south_cap idx_v_south
    idx_v_s_equator idx_v_cyl idx_v_n_equator
  split
  · ring
  · rename_i h
    have hz : r = 0 := by omega
    subst hz; ring

theorem len_vts_closed (L hl r : ℤ) (hr : 0 ≤ r) :
    len_vts L hl r = 2 * L + (L + 1) * (2 * hl + r) := by
  unfold len_vts idx_vt_s_cap idx_vt_s_polar idx_vt_s_hemi
    idx_vt_s_equator idx_vt_cyl idx_vt_n_equator
  split
  · ring
  · rename_i h
    have hz : r = 0 := by omega
    subst hz; ring

theorem len_vns_closed (L hl : ℤ) :
    len_vns L hl = 1 + L * (2 * hl) := by
  unfold len_vns idx_vn_south_pole idx_vn_south_cap idx_vn_south
    idx_v_n_equator
  ring

theorem len_indices_closed (L hl r : ℤ) :
    len_indices L hl r = L * (2 * hl + r + 1) := by
  unfold len_indices idx_fs_south_hemi idx_fs_south_equat idx_fs_cyl
  ring

theorem capsule_vs_length (st sp : ℕ → ℚ × ℚ) (L hl r : ℤ)
    (rad half_depth summit : ℚ) (hL : 0 ≤ L) (hhl : 1 ≤ hl) (hr : 0 ≤ r) :
    ((capsule_vs st sp L hl r rad half_depth summit).length : ℤ) =
      len_vs L hl r := by
  rw [len_vs_closed L hl r hr]
  simp only [capsule_vs, List.length_append, length_ringL, length_gridL,
    List.length_cons, List.length_nil]
  push_cast [Int.toNat_of_nonneg hL, Int.toNat_of_nonneg hr,
    Int.toNat_of_nonneg (by omega : (0 : ℤ) ≤ hl - 1)]
  ring

theorem capsule_vts_length (L hl r : ℤ) (aspS : ℚ)
    (hL : 0 ≤ L) (hhl : 1 ≤ hl) (hr : 0 ≤ r) :
    ((capsule_vts L hl r aspS).length : ℤ) = len_vts L hl r := by
  rw [len_vts_closed L hl r hr]
  simp only [capsule_vts, List.length_append, length_ringL, length_gridL,
    List.length_cons, List.length_nil]
  push_cast [Int.toNat_of_nonneg hL, Int.toNat_of_nonneg hr,
    Int.toNat_of_nonneg (by omega : (0 : ℤ) ≤ hl - 1)]
  ring

theorem capsule_vns_length (st sp : ℕ → ℚ × ℚ) (L hl : ℤ)
    (hL : 1 ≤ L) (hhl : 1 ≤ hl) :
    ((capsule_vns st sp L hl).length : ℤ) = len_vns L hl := by
  rw [len_vns_closed]
  simp only [capsule_vns, List.length_append, length_ringL, length_gridL,
    List.length_cons, List.length_nil, List.length_replicate]
  have h1 : (1 : ℕ) ≤ L.toNat := by omega
  push_cast [Int.toNat_of_nonneg (by omega : (0 : ℤ) ≤ L),
    Int.toNat_of_nonneg (by omega : (0 : ℤ) ≤ hl - 1), Nat.cast_sub h1]
  ring

theorem capsule_v_indices_length (L hl r : ℤ)
    (hL : 0 ≤ L) (hhl : 1 ≤ hl) (hr : 0 ≤ r) :
    ((capsule_v_indices L hl r).length : ℤ) = len_indices L hl r := by
  rw [len_indices_closed]
  simp only [capsule_v_indices, List.length_append, length_ringL,
    length_gridL]
  push_cast [Int.toNat_of_nonneg hL, Int.toNat_of_nonneg hr,
    Int.toNat_of_nonneg (by omega : (0 : ℤ) ≤ hl - 1)]
  ring

theorem capsule_vt_indices_length (L hl r : ℤ)
    (hL : 0 ≤ L) (hhl : 1 ≤ hl) (hr : 0 ≤ r) :
    ((capsule_vt_indices L hl r).length : ℤ) = len_indices L hl r := by
  rw [len_indices_closed]
  simp only [capsule_vt_indices, List.length_append, length_ringL,
    length_gridL]
  push_cast [Int.toNat_of_nonneg hL, Int.toNat_of_nonneg hr,
    Int.toNat_of_nonneg (by omega : (0 : ℤ) ≤ hl - 1)]
  ring

theorem capsule_vn_indices_length (L hl r : ℤ)
    (hL : 0 ≤ L) (hhl : 1 ≤ hl) (hr : 0 ≤ r) :
    ((capsule_vn_indices L hl r).length : ℤ) = len_indices L hl r := by
  rw [len_indices_closed]
  simp only [capsule_vn_indices, List.length_append, length_ringL,
    length_gridL]
  push_cast [Int.toNat_of_nonneg hL, Int.toNat_of_nonneg hr,
    Int.toNat_of_nonneg (by omega : (0 : ℤ) ≤ hl - 1)]
  ring

/-! ### Projection lemmas for `create_capsule_data` -/

theorem create_capsule_data_vs (st sp : ℕ → ℚ × ℚ)
    (lons lats rings : ℤ) (depth radius : ℚ) (p : UVProfile) :
    (create_capsule_data st sp lons lats rings depth radius p).vs =
      capsule_vs st sp (verif_lons lons) (verif_lats lats / 2)
        (verif_rings rings) (verif_rad radius)
        (verif_depth depth * (1 / 2))
        (verif_depth depth * (1 / 2) + verif_rad radius) := rfl

theorem create_capsule_data_vts (st sp : ℕ → ℚ × ℚ)
    (lons lats rings : ℤ) (depth radius : ℚ) (p : UVProfile) :
    (create_capsule_data st sp lons lats rings depth radius p).vts =
      capsule_vts (verif_lons lons) (verif_lats lats / 2)
        (verif_rings rings)
        (vt_aspect_south p (verif_rad radius) (verif_depth depth)
          (verif_lats lats / 2) (verif_rings rings) (verif_lats lats)) :=
  rfl

theorem create_capsule_data_vns (st sp : ℕ → ℚ × ℚ)
    (lons lats rings : ℤ) (depth radius : ℚ) (p : UVProfile) :
    (create_capsule_data st sp lons lats rings depth radius p).vns =
      capsule_vns st sp (verif_lons lons) (verif_lats lats / 2) := rfl

theorem create_capsule_data_v_indices (st sp : ℕ → ℚ × ℚ)
    (lons lats rings : ℤ) (depth radius : ℚ) (p : UVProfile) :
    (create_capsule_data st sp lons lats rings depth radius p).v_indices =
      capsule_v_indices (verif_lons lons) (verif_lats lats / 2)
        (verif_rings rings) := rfl

theorem create_capsule_data_vt_indices (st sp : ℕ → ℚ × ℚ)
    (lons lats rings : ℤ) (depth radius : ℚ) (p : UVProfile) :
    (create_capsule_data st sp lons lats rings depth radius p).vt_indices =
      capsule_vt_indices (verif_lons lons) (verif_lats lats / 2)
        (verif_rings rings) := rfl

theorem create_capsule_data_vn_indices (st sp : ℕ → ℚ × ℚ)
    (lons lats rings : ℤ) (depth radius : ℚ) (p : UVProfile) :
    (create_capsule_data st sp lons lats rings depth radius p).vn_indices =
      capsule_vn_indices (verif_lons lons) (verif_lats lats / 2)
        (verif_rings rings) := rfl

/-- C1 (amended): every buffer's length equals the source's precomputed
list length (`len_vs`/`len_vts`/`len_vns`/`len_indices`, lines 221-225),
with closed forms over the clamped parameters: vertex count
`2 + L·(lat+r)`; face count `L·(lat+r+1)` for each of the three parallel
face-index lists; UV count `2·L + (L+1)·(lat+r)`; and normal count
`1 + L·lat` — that is `2 + L·(lat−1)` entries in use plus the `L−1`
allocated defaults lying past the last offset `idx_vn_south_pole`, because
line 224 adds `verif_lons` instead of `1`. -/
theorem builder_buffer_lengths (st sp : ℕ → ℚ × ℚ)
    (lons lats rings : ℤ) (depth radius : ℚ) (uv_profile : UVProfile)
    (L lat r : ℤ) (hL : L = verif_lons lons) (hlat : lat = verif_lats lats)
    (hr : r = verif_rings rings) :
    ((create_capsule_data st sp lons lats rings depth radius
        uv_profile).vs.length : ℤ) = len_vs L (lat / 2) r ∧
    len_vs L (lat / 2) r = 2 + L * (lat + r) ∧
    ((create_capsule_data st sp lons lats rings depth radius
        uv_profile).v_indices.length : ℤ) = len_indices L (lat / 2) r ∧
    ((create_capsule_data st sp lons lats rings depth radius
        uv_profile).vt_indices.length : ℤ) = len_indices L (lat / 2) r ∧
    ((create_capsule_data st sp lons lats rings depth radius
        uv_profile).vn_indices.length : ℤ) = len_indices L (lat / 2) r ∧
    len_indices L (lat / 2) r = L * (lat + r + 1) ∧
    ((create_capsule_data st sp lons lats rings depth radius
        uv_profile).vts.length : ℤ) = len_vts L (lat / 2) r ∧
    len_vts L (lat / 2) r = 2 * L + (L + 1) * (lat + r) ∧
    ((create_capsule_data st sp lons lats rings depth radius
        uv_profile).vns.length : ℤ) = len_vns L (lat / 2) ∧
    len_vns L (lat / 2) = 1 + L * lat := by
  subst hL hlat hr
  have h3 : 3 ≤ verif_lons lons := verif_lons_ge lons
  have h2 : 2 ≤ verif_lats lats := verif_lats_ge lats
  have hev : verif_lats lats % 2 = 0 := verif_lats_even lats
  have h0 : 0 ≤ verif_rings rings := verif_rings_nonneg rings
  have hhl : 1 ≤ verif_lats lats / 2 := by omega
  have htwo : 2 * (verif_lats lats / 2) = verif_lats lats := by omega
  refine ⟨?_, ?_, ?_, ?_, ?_, ?_, ?_, ?_, ?_, ?_⟩
  · rw [create_capsule_data_vs]
    exact capsule_vs_length _ _ _ _ _ _ _ _ (by omega) hhl h0
  · rw [len_vs_closed _ _ _ h0, htwo]
  · rw [create_capsule_data_v_indices]
    exact capsule_v_indices_length _ _ _ (by omega) hhl h0
  · rw [create_capsule_data_vt_indices]
    exact capsule_vt_indices_length _ _ _ (by omega) hhl h0
  · rw [create_capsule_data_vn_indices]
    exact capsule_vn_indices_length _ _ _ (by omega) hhl h0
  · rw [len_indices_closed, htwo]
  · rw [create_capsule_data_vts]
    exact capsule_vts_length _ _ _ _ (by omega) hhl h0
  · rw [len_vts_closed _ _ _ h0, htwo]
  · rw [create_capsule_data_vns]
    exact capsule_vns_length _ _ _ _ (by omega) hhl
  · rw [len_vns_closed, htwo]

/-- Witness for the amended C1 at `longitudes 5, latitudes 3, rings 2`
(clamped to `L = 5`, `lat = 4`, `r = 2`). -/
theorem builder_buffer_lengths_witness :
    ((create_capsule_data (fun _ => (0, 1)) (fun _ => (0, 1)) 5 3 2 1 1
        UVProfile.FIXED).vs.length : ℤ) = len_vs 5 (4 / 2) 2 ∧
    len_vs 5 (4 / 2) 2 = 2 + 5 * (4 + 2) ∧
    ((create_capsule_data (fun _ => (0, 1)) (fun _ => (0, 1)) 5 3 2 1 1
        UVProfile.FIXED).v_indices.length : ℤ) = len_indices 5 (4 / 2) 2 ∧
    ((create_capsule_data (fun _ => (0, 1)) (fun _ => (0, 1)) 5 3 2 1 1
        UVProfile.FIXED).vt_indices.length : ℤ) = len_indices 5 (4 / 2) 2 ∧
    ((create_capsule_data (fun _ => (0, 1)) (fun _ => (0, 1)) 5 3 2 1 1
        UVProfile.FIXED).vn_indices.length : ℤ) = len_indices 5 (4 / 2) 2 ∧
    len_indices 5 (4 / 2) 2 = 5 * (4 + 2 + 1) ∧
    ((create_capsule_data (fun _ => (0, 1)) (fun _ => (0, 1)) 5 3 2 1 1
        UVProfile.FIXED).vts.length : ℤ) = len_vts 5 (4 / 2) 2 ∧
    len_vts 5 (4 / 2) 2 = 2 * 5 + (5 + 1) * (4 + 2) ∧
    ((create_capsule_data (fun _ => (0, 1)) (fun _ => (0, 1)) 5 3 2 1 1
        UVProfile.FIXED).vns.length : ℤ) = len_vns 5 (4 / 2) ∧
    len_vns 5 (4 / 2) = 1 + 5 * 4 :=
  builder_buffer_lengths (fun _ => (0, 1)) (fun _ => (0, 1)) 5 3 2 1 1
    UVProfile.FIXED 5 4 2 (by decide) (by decide) (by decide)

/-- C1 (counterexample to the claim as stated): at
`longitudes 4, latitudes 2, rings 0` the allocated normal buffer holds
`1 + 4·2 = 9` entries, not the `2 + 4·(2−1) = 6` demanded by the claimed
closed form `2 + L·(lat−1)`. -/
theorem builder_normal_count_counterexample :
    ¬ (((create_capsule_data (fun _ => (0, 1)) (fun _ => (0, 1)) 4 2 0 1
        (1 / 2) UVProfile.FIXED).vns.length : ℤ) = 2 + 4 * (2 - 1)) := by
  have h := capsule_vns_length (fun _ => ((0 : ℚ), (1 : ℚ)))
    (fun _ => ((0 : ℚ), (1 : ℚ))) 4 1 (by norm_num) (by norm_num)
  have h1 : verif_lons 4 = 4 := by decide
  have h2 : verif_lats 2 / 2 = 1 := by decide
  rw [create_capsule_data_vns, h1, h2, h]
  decide

/-- C2: at `longitudes = 4, latitudes = 2, rings = 0, depth = 1,
radius = 1/2` (for any trigonometric oracle values) the Builder produces
exactly 10 vertices and exactly these 12 faces — 4 north-fan triangles,
4 cylinder quads, 4 south-fan triangles — with the north pole vertex
`(0,0,1)` first and the south pole vertex `(0,0,-1)` last
(`summit = depth/2 + radius = 1`, source line 191). -/
theorem builder_concrete_scenario (st sp : ℕ → ℚ × ℚ) :
    (create_capsule_data st sp 4 2 0 1 (1 / 2) UVProfile.FIXED).vs.length
      = 10 ∧
    (create_capsule_data st sp 4 2 0 1 (1 / 2) UVProfile.FIXED).v_indices
      = [[0, 1, 2], [0, 2, 3], [0, 3, 4], [0, 4, 1],
         [1, 5, 6, 2], [2, 6, 7, 3], [3, 7, 8, 4], [4, 8, 5, 1],
         [9, 6, 5], [9, 7, 6], [9, 8, 7], [9, 5, 8]] ∧
    (create_capsule_data st sp 4 2 0 1 (1 / 2) UVProfile.FIXED).vs.head?
      = some (0, 0, 1) ∧
    (create_capsule_data st sp 4 2 0 1 (1 / 2) UVProfile.FIXED).vs.getLast?
      = some (0, 0, -1) := by
  have h1 : verif_lons 4 = 4 := by decide
  have h2 : verif_lats 2 / 2 = 1 := by decide
  have h2l : verif_lats 2 = 2 := by decide
  have h3 : verif_rings 0 = 0 := by decide
  have hdep : verif_depth 1 = 1 := by
    unfold verif_depth
    rw [max_eq_right (by norm_num)]
  have hrad : verif_rad (1 / 2) = 1 / 2 := by
    unfold verif_rad
    rw [max_eq_right (by norm_num)]
  have hsummit : verif_depth 1 * (1 / 2) + verif_rad (1 / 2) = 1 := by
    rw [hdep, hrad]; norm_num
  refine ⟨?_, ?_, ?_, ?_⟩
  · have h := capsule_vs_length st sp 4 1 0 (verif_rad (1 / 2))
      (verif_depth 1 * (1 / 2)) (verif_depth 1 * (1 / 2) + verif_rad (1 / 2))
      (by norm_num) (by norm_num) (by norm_num)
    rw [create_capsule_data_vs, h1, h2, h3] at *
    have hlen : len_vs 4 1 0 = 10 := by decide
    omega
  · rw [create_capsule_data_v_indices, h1, h2, h3]
    decide
  · rw [create_capsule_data_vs, h1, h2, h3, hsummit]
    simp [capsule_vs]
  · rw [create_capsule_data_vs, h1, h2, h3]
    simp only [capsule_vs, List.getLast?_append, List.getLast?_singleton,
      Option.or_some]
    rw [hsummit]

/-! ### C7: silent clamping -/

theorem verif_rad_idem (x : ℚ) : verif_rad (verif_rad x) = verif_rad x := by
  unfold verif_rad
  rw [← max_assoc, max_self]

theorem verif_depth_idem (x : ℚ) :
    verif_depth (verif_depth x) = verif_depth x := by
  unfold verif_depth
  rw [← max_assoc, max_self]

theorem verif_rings_idem (x : ℤ) :
    verif_rings (verif_rings x) = verif_rings x := by
  unfold verif_rings
  rw [← max_assoc, max_self]

theorem verif_lons_idem (x : ℤ) :
    verif_lons (verif_lons x) = verif_lons x := by
  unfold verif_lons
  rw [← max_assoc, max_self]

theorem verif_lats_idem (x : ℤ) :
    verif_lats (verif_lats x) = verif_lats x := by
  have h1 := verif_lats_ge x
  have h2 := verif_lats_even x
  set y := verif_lats x with hy
  unfold verif_lats
  dsimp only
  rw [max_eq_right h1]
  simp [h2]

/-- C7: the Builder is total — for every input, including zero or negative
parameters, it returns the same complete buffer record as for the clamped
parameters (`radius ≥ 0.0001`, `depth ≥ 0.0002`, `rings ≥ 0`,
`longitudes ≥ 3`, `latitudes ≥ 2` rounded up to even), the clamps satisfy
those bounds, and all six buffers are present with the three face-index
lists of equal positive-vertex-consistent lengths. -/
theorem builder_never_fails (st sp : ℕ → ℚ × ℚ) (lons lats rings : ℤ)
    (depth radius : ℚ) (uv_profile : UVProfile) :
    create_capsule_data st sp lons lats rings depth radius uv_profile =
      create_capsule_data st sp (verif_lons lons) (verif_lats lats)
        (verif_rings rings) (verif_depth depth) (verif_rad radius)
        uv_profile ∧
    1 / 10000 ≤ verif_rad radius ∧ 2 / 10000 ≤ verif_depth depth ∧
    0 ≤ verif_rings rings ∧ 3 ≤ verif_lons lons ∧
    2 ≤ verif_lats lats ∧ verif_lats lats % 2 = 0 ∧
    0 < (create_capsule_data st sp lons lats rings depth radius
        uv_profile).vs.length ∧
    (create_capsule_data st sp lons lats rings depth radius
        uv_profile).v_indices.length =
      (create_capsule_data st sp lons lats rings depth radius
        uv_profile).vt_indices.length ∧
    (create_capsule_data st sp lons lats rings depth radius
        uv_profile).vt_indices.length =
      (create_capsule_data st sp lons lats rings depth radius
        uv_profile).vn_indices.length := by
  obtain ⟨hvs, hvsc, hvi, hvti, hvni, -, -, -, -, -⟩ :=
    builder_buffer_lengths st sp lons lats rings depth radius uv_profile
      (verif_lons lons) (verif_lats lats) (verif_rings rings) rfl rfl rfl
  have h3 : 3 ≤ verif_lons lons := verif_lons_ge lons
  have h2 : 2 ≤ verif_lats lats := verif_lats_ge lats
  have h0 : 0 ≤ verif_rings rings := verif_rings_nonneg rings
  refine ⟨?_, le_max_left _ _, le_max_left _ _, h0, h3, h2,
    verif_lats_even lats, ?_, by omega, by omega⟩
  · unfold create_capsule_data
    rw [verif_rad_idem, verif_depth_idem, verif_rings_idem, verif_lons_idem,
      verif_lats_idem]
  · have hnn : 0 ≤ verif_lons lons *
        (verif_lats lats + verif_rings rings) :=
      mul_nonneg (by omega) (by omega)
    have : (0 : ℤ) < ((create_capsule_data st sp lons lats rings depth
        radius uv_profile).vs.length : ℤ) := by
      rw [hvs, hvsc]
      linarith
    exact_mod_cast this

/-! ### Canonical ring/band description of the vertex face list

The vertex indices of `capsule_v_indices` organise into horizontal rings:
ring `k` (`0 ≤ k < K`, `K = lat + r` the total count of non-pole rings)
starts at flat index `1 + k*L`, the north pole is `0` and the south pole is
`1 + K*L`.  In that numbering the face list is: `L` north fan triangles,
`K - 1` bands of `L` quads between consecutive rings, and `L` south fan
triangles.  This canonical form is proved equal to the embedded list and
drives the watertightness and validity proofs. -/

/-- Flat vertex index of ring `k`, column `j`. -/
def rv (Ln k j : ℕ) : ℤ := 1 + (k : ℤ) * (Ln : ℤ) + (j : ℤ)

/-- Flat vertex index of the south pole. -/
def svp (Ln K : ℕ) : ℤ := 1 + (K : ℤ) * (Ln : ℤ)

/-- Canonical north fan triangle `j`. -/
def canFanN (Ln j : ℕ) : List ℤ := [0, rv Ln 0 j, rv Ln 0 (jnv Ln j)]

/-- Canonical quad `j` of the band between rings `k` and `k+1`. -/
def canQuad (Ln k j : ℕ) : List ℤ :=
  [rv Ln k j, rv Ln (k + 1) j, rv Ln (k + 1) (jnv Ln j),
   rv Ln k (jnv Ln j)]

/-- Canonical south fan triangle `j`. -/
def canFanS (Ln K j : ℕ) : List ℤ :=
  [svp Ln K, rv Ln (K - 1) (jnv Ln j), rv Ln (K - 1) j]

/-- The canonical face list: fans, `K-1` quad bands, fans. -/
def canFaces (Ln K : ℕ) : List (List ℤ) :=
  ringL Ln (canFanN Ln) ++ gridL (K - 1) Ln (canQuad Ln) ++
    ringL Ln (canFanS Ln K)

theorem ringL_congr {α : Type} {n : ℕ} {f g : ℕ → α}
    (h : ∀ j < n, f j = g j) : ringL n f = ringL n g :=
  List.map_congr_left (fun a ha => h a (List.mem_range.mp ha))

theorem gridL_congr {α : Type} {m n : ℕ} {f g : ℕ → ℕ → α}
    (h : ∀ i < m, ∀ j < n, f i j = g i j) : gridL m n f = gridL m n g := by
  unfold gridL
  apply List.flatMap_congr
  intro x hx
  exact ringL_congr (fun j hj => h x (List.mem_range.mp hx) j hj)

theorem gridL_add {α : Type} (a b n : ℕ) (f : ℕ → ℕ → α) :
    gridL (a + b) n f = gridL a n f ++ gridL b n (fun i => f (a + i)) := by
  unfold gridL
  rw [List.range_add, List.flatMap_append, List.flatMap_map]

/-! Normal forms of the vertex offsets over the ring numbering. -/

theorem idx_v_n_equator_eq (L hl : ℤ) :
    idx_v_n_equator L hl = 1 + (hl - 1) * L := by
  unfold idx_v_n_equator; ring

theorem idx_v_s_equator_eq (L hl r : ℤ) (hr : 0 ≤ r) :
    idx_v_s_equator L hl r = 1 + (hl + r) * L := by
  unfold idx_v_s_equator idx_v_cyl idx_v_n_equator
  split
  · ring
  · rename_i h
    have hz : r = 0 := by omega
    subst hz; ring

theorem idx_v_south_cap_eq (L hl r : ℤ) (hr : 0 ≤ r) :
    idx_v_south_cap L hl r = 1 + (2 * hl + r - 1) * L := by
  unfold idx_v_south_cap idx_v_south
  rw [idx_v_s_equator_eq L hl r hr]
  ring

theorem idx_v_south_pole_eq (L hl r : ℤ) (hr : 0 ≤ r) :
    idx_v_south_pole L hl r = 1 + (2 * hl + r) * L := by
  unfold idx_v_south_pole
  rw [idx_v_south_cap_eq L hl r hr]
  ring

/-- The embedded `v_indices` equal the canonical fan/band/fan list with
`K = 2*hl + r` rings. -/
theorem capsule_v_indices_canonical (L hl r : ℤ)
    (hL : 3 ≤ L) (hhl : 1 ≤ hl) (hr : 0 ≤ r) :
    capsule_v_indices L hl r = canFaces L.toNat (2 * hl + r).toNat := by
  have htL : ((L.toNat : ℤ)) = L := Int.toNat_of_nonneg (by omega)
  have hthn : (((hl - 1).toNat : ℤ)) = hl - 1 := Int.toNat_of_nonneg (by omega)
  have htrn : ((r.toNat : ℤ)) = r := Int.toNat_of_nonneg hr
  have htKn : (((2 * hl + r).toNat : ℤ)) = 2 * hl + r :=
    Int.toNat_of_nonneg (by omega)
  have hsplit : (2 * hl + r).toNat - 1 =
      (hl - 1).toNat + ((r.toNat + 1) + (hl - 1).toNat) := by omega
  have hcan : canFaces L.toNat (2 * hl + r).toNat =
      ringL L.toNat (canFanN L.toNat) ++
        (gridL (hl - 1).toNat L.toNat (canQuad L.toNat) ++
          (gridL (r.toNat + 1) L.toNat
            (fun i => canQuad L.toNat ((hl - 1).toNat + i)) ++
           gridL (hl - 1).toNat L.toNat
            (fun i => canQuad L.toNat ((hl - 1).toNat + (r.toNat + 1 + i)))))
        ++ ringL L.toNat (canFanS L.toNat (2 * hl + r).toNat) := by
    unfold canFaces
    rw [hsplit, gridL_add, gridL_add]
  have e1 : ringL L.toNat (fun j => northFanFace L.toNat j) =
      ringL L.toNat (canFanN L.toNat) := by
    apply ringL_congr
    intro j hj
    simp only [northFanFace, canFanN, rv, List.cons.injEq, and_true]
    push_cast
    and_intros <;> ring
  have e2 : gridL (hl - 1).toNat L.toNat
      (fun i j => quadFace (1 + (i : ℤ) * L) (1 + (i : ℤ) * L + L)
        L.toNat j) =
      gridL (hl - 1).toNat L.toNat (canQuad L.toNat) := by
    apply gridL_congr
    intro i hi j hj
    simp only [quadFace, canQuad, rv, List.cons.injEq, and_true, htL]
    push_cast
    and_intros <;> ring
  have e3 : gridL (r.toNat + 1) L.toNat
      (fun m j => quadFace (idx_v_n_equator L hl + (m : ℤ) * L)
        (idx_v_n_equator L hl + (m : ℤ) * L + L) L.toNat j) =
      gridL (r.toNat + 1) L.toNat
        (fun i => canQuad L.toNat ((hl - 1).toNat + i)) := by
    apply gridL_congr
    intro i hi j hj
    simp only [quadFace, canQuad, rv, List.cons.injEq, and_true, htL,
      idx_v_n_equator_eq]
    push_cast [hthn]
    and_intros <;> ring
  have e4 : gridL (hl - 1).toNat L.toNat
      (fun i j => quadFace (idx_v_s_equator L hl r + (i : ℤ) * L)
        (idx_v_s_equator L hl r + (i : ℤ) * L + L) L.toNat j) =
      gridL (hl - 1).toNat L.toNat
        (fun i => canQuad L.toNat ((hl - 1).toNat + (r.toNat + 1 + i))) := by
    apply gridL_congr
    intro i hi j hj
    simp only [quadFace, canQuad, rv, List.cons.injEq, and_true, htL,
      idx_v_s_equator_eq L hl r hr]
    push_cast [hthn, htrn]
    and_intros <;> ring
  have e5 : ringL L.toNat (fun j =>
      southFanFace (idx_v_south_pole L hl r) (idx_v_south_cap L hl r)
        L.toNat j) =
      ringL L.toNat (canFanS L.toNat (2 * hl + r).toNat) := by
    apply ringL_congr
    intro j hj
    have hc : (((2 * hl + r).toNat - 1 : ℕ) : ℤ) = 2 * hl + r - 1 := by
      omega
    simp only [southFanFace, canFanS, rv, svp, List.cons.injEq, and_true,
      htL, htKn, hc, idx_v_south_pole_eq L hl r hr,
      idx_v_south_cap_eq L hl r hr]
  unfold capsule_v_indices
  dsimp only
  rw [hcan, e1, e2, e3, e4, e5]
  simp only [List.append_assoc]

/-! ### Arithmetic facts about ring/column indices -/

theorem jnv_eq (Ln j : ℕ) (hj : j < Ln) :
    jnv Ln j = if j + 1 = Ln then 0 else j + 1 := by
  unfold jnv
  split
  · rename_i h
    rw [h, Nat.mod_self]
  · rename_i h
    exact Nat.mod_eq_of_lt (by omega)

theorem jnv_lt (Ln j : ℕ) (h : 0 < Ln) : jnv Ln j < Ln :=
  Nat.mod_lt _ h

theorem jnv_inj {Ln j j' : ℕ} (hj : j < Ln) (hj' : j' < Ln)
    (h : jnv Ln j = jnv Ln j') : j = j' := by
  rw [jnv_eq Ln j hj, jnv_eq Ln j' hj'] at h
  split at h <;> split at h <;> omega

theorem jnv_ne_self {Ln j : ℕ} (hLn : 2 ≤ Ln) (hj : j < Ln) :
    jnv Ln j ≠ j := by
  rw [jnv_eq Ln j hj]
  split <;> omega

theorem jnv_jnv_ne {Ln j : ℕ} (hLn : 3 ≤ Ln) (hj : j < Ln) :
    jnv Ln (jnv Ln j) ≠ j := by
  have h1 : jnv Ln j < Ln := jnv_lt Ln j (by omega)
  rw [jnv_eq Ln (jnv Ln j) h1, jnv_eq Ln j hj]
  split <;> split <;> omega

theorem jnv_surj {Ln j : ℕ} (hLn : 1 ≤ Ln) (hj : j < Ln) :
    ∃ j0, j0 < Ln ∧ jnv Ln j0 = j := by
  rcases Nat.eq_zero_or_pos j with hz | hp
  · refine ⟨Ln - 1, by omega, ?_⟩
    subst hz
    unfold jnv
    rw [Nat.sub_add_cancel hLn, Nat.mod_self]
  · refine ⟨j - 1, by omega, ?_⟩
    rw [jnv_eq Ln (j - 1) (by omega)]
    split <;> omega

theorem rv_nonneg (Ln k j : ℕ) : 0 ≤ rv Ln k j := by
  unfold rv
  positivity

theorem rv_pos (Ln k j : ℕ) : 0 < rv Ln k j := by
  have h1 : (0 : ℤ) ≤ (k : ℤ) * (Ln : ℤ) := by positivity
  unfold rv
  omega

theorem rv_inj {Ln k k' j j' : ℕ} (hj : j < Ln) (hj' : j' < Ln)
    (h : rv Ln k j = rv Ln k' j') : k = k' ∧ j = j' := by
  have hL : 0 < Ln := by omega
  have hn : k * Ln + j = k' * Ln + j' := by
    have : ((k * Ln + j : ℕ) : ℤ) = ((k' * Ln + j' : ℕ) : ℤ) := by
      push_cast
      unfold rv at h
      linarith
    exact_mod_cast this
  have hdiv : ∀ a b : ℕ, b < Ln → (a * Ln + b) / Ln = a := by
    intro a b hb
    rw [Nat.mul_comm, Nat.mul_add_div hL, Nat.div_eq_of_lt hb, Nat.add_zero]
  have hmod : ∀ a b : ℕ, b < Ln → (a * Ln + b) % Ln = b := by
    intro a b hb
    rw [Nat.mul_comm, Nat.mul_add_mod, Nat.mod_eq_of_lt hb]
  constructor
  · rw [← hdiv k j hj, ← hdiv k' j' hj', hn]
  · rw [← hmod k j hj, ← hmod k' j' hj', hn]

theorem rv_lt_svp {Ln K k j : ℕ} (hk : k < K) (hj : j < Ln) :
    rv Ln k j < svp Ln K := by
  have hn : k * Ln + j < K * Ln := by
    calc k * Ln + j < k * Ln + Ln := by omega
    _ = (k + 1) * Ln := by ring
    _ ≤ K * Ln := Nat.mul_le_mul_right Ln (by omega)
  unfold rv svp
  have : ((k * Ln + j : ℕ) : ℤ) < ((K * Ln : ℕ) : ℤ) := by exact_mod_cast hn
  push_cast at this
  linarith

theorem rv_ne_zero (Ln k j : ℕ) : rv Ln k j ≠ 0 :=
  ne_of_gt (rv_pos Ln k j)

theorem svp_pos (Ln K : ℕ) : 0 < svp Ln K := by
  have h1 : (0 : ℤ) ≤ (K : ℤ) * (Ln : ℤ) := by positivity
  unfold svp
  omega

theorem rv_ne_svp {Ln K k j : ℕ} (hk : k < K) (hj : j < Ln) :
    rv Ln k j ≠ svp Ln K :=
  ne_of_lt (rv_lt_svp hk hj)

theorem pairwise3 {α : Type} (x y z : α) (h1 : x ≠ y) (h2 : x ≠ z) (h3 : y ≠ z) :
    List.Pairwise (fun a b => a ≠ b) [x, y, z] := by
  refine List.Pairwise.cons ?_ (List.Pairwise.cons ?_
    (List.Pairwise.cons (by simp) List.Pairwise.nil))
  · intro a ha
    rcases List.mem_cons.mp ha with rfl | ha2
    · exact h1
    · rcases List.mem_cons.mp ha2 with rfl | h0
      · exact h2
      · cases h0
  · intro a ha
    rcases List.mem_cons.mp ha with rfl | h0
    · exact h3
    · cases h0

theorem pairwise4 {α : Type} (x y z w : α) (h1 : x ≠ y) (h2 : x ≠ z) (h3 : x ≠ w)
    (h4 : y ≠ z) (h5 : y ≠ w) (h6 : z ≠ w) :
    List.Pairwise (fun a b => a ≠ b) [x, y, z, w] := by
  refine List.Pairwise.cons ?_ ?_
  · intro a ha
    rcases List.mem_cons.mp ha with rfl | ha2
    · exact h1
    · rcases List.mem_cons.mp ha2 with rfl | ha3
      · exact h2
      · rcases List.mem_cons.mp ha3 with rfl | h0
        · exact h3
        · cases h0
  · exact pairwise3 y z w h4 h5 h6

/-- Every canonical face references only indices in `[0, svp]` and has
pairwise distinct vertex indices. -/
theorem canFaces_valid {Ln K : ℕ} (hLn : 3 ≤ Ln) (hK : 2 ≤ K) :
    ∀ f ∈ canFaces Ln K,
      (∀ x ∈ f, 0 ≤ x ∧ x ≤ svp Ln K) ∧ List.Pairwise (fun a b => a ≠ b) f := by
  intro f hf
  simp only [canFaces, List.mem_append, ringL, gridL, List.mem_flatMap,
    List.mem_map, List.mem_range] at hf
  rcases hf with (⟨j, hj, rfl⟩ | ⟨k, hk, j, hj, rfl⟩) | ⟨j, hj, rfl⟩
  · have hjn : jnv Ln j < Ln := jnv_lt Ln j (by omega)
    constructor
    · intro x hx
      simp only [canFanN, List.mem_cons, List.not_mem_nil, or_false] at hx
      rcases hx with rfl | rfl | rfl
      · exact ⟨le_refl 0, le_of_lt (svp_pos Ln K)⟩
      · exact ⟨rv_nonneg _ _ _, le_of_lt (rv_lt_svp (by omega) hj)⟩
      · exact ⟨rv_nonneg _ _ _, le_of_lt (rv_lt_svp (by omega) hjn)⟩
    · exact pairwise3 _ _ _ (rv_ne_zero Ln 0 j).symm
        (rv_ne_zero Ln 0 (jnv Ln j)).symm
        (fun h => jnv_ne_self (by omega) hj ((rv_inj hj hjn h).2).symm)
  · have hjn : jnv Ln j < Ln := jnv_lt Ln j (by omega)
    have hkK : k < K := by omega
    have hk1K : k + 1 < K := by omega
    have hjne : jnv Ln j ≠ j := jnv_ne_self (by omega) hj
    constructor
    · intro x hx
      simp only [canQuad, List.mem_cons, List.not_mem_nil, or_false] at hx
      rcases hx with rfl | rfl | rfl | rfl
      · exact ⟨rv_nonneg _ _ _, le_of_lt (rv_lt_svp hkK hj)⟩
      · exact ⟨rv_nonneg _ _ _, le_of_lt (rv_lt_svp hk1K hj)⟩
      · exact ⟨rv_nonneg _ _ _, le_of_lt (rv_lt_svp hk1K hjn)⟩
      · exact ⟨rv_nonneg _ _ _, le_of_lt (rv_lt_svp hkK hjn)⟩
    · exact pairwise4 _ _ _ _
        (fun h => absurd (rv_inj hj hj h).1 (by omega))
        (fun h => absurd (rv_inj hj hjn h).1 (by omega))
        (fun h => hjne ((rv_inj hj hjn h).2).symm)
        (fun h => hjne ((rv_inj hj hjn h).2).symm)
        (fun h => absurd (rv_inj hj hjn h).1 (by omega))
        (fun h => absurd (rv_inj hjn hjn h).1 (by omega))
  · have hjn : jnv Ln j < Ln := jnv_lt Ln j (by omega)
    have hK1 : K - 1 < K := by omega
    constructor
    · intro x hx
      simp only [canFanS, List.mem_cons, List.not_mem_nil, or_false] at hx
      rcases hx with rfl | rfl | rfl
      · exact ⟨le_of_lt (svp_pos Ln K), le_refl _⟩
      · exact ⟨rv_nonneg _ _ _, le_of_lt (rv_lt_svp hK1 hjn)⟩
      · exact ⟨rv_nonneg _ _ _, le_of_lt (rv_lt_svp hK1 hj)⟩
    · exact pairwise3 _ _ _ (rv_ne_svp hK1 hjn).symm (rv_ne_svp hK1 hj).symm
        (fun h => jnv_ne_self (by omega) hj (rv_inj hjn hj h).2)

/-! Normal forms of the texture and normal offsets. -/

theorem idx_vt_n_equator_eq (L hl : ℤ) :
    idx_vt_n_equator L hl = L + (hl - 1) * (L + 1) := by
  unfold idx_vt_n_equator; ring

theorem idx_vt_s_equator_eq (L hl r : ℤ) (hr : 0 ≤ r) :
    idx_vt_s_equator L hl r = L + (hl + r) * (L + 1) := by
  unfold idx_vt_s_equator idx_vt_cyl idx_vt_n_equator
  split
  · ring
  · rename_i h
    have hz : r = 0 := by omega
    subst hz; ring

theorem idx_vt_s_polar_eq (L hl r : ℤ) (hr : 0 ≤ r) :
    idx_vt_s_polar L hl r = L + (2 * hl + r - 1) * (L + 1) := by
  unfold idx_vt_s_polar idx_vt_s_hemi
  rw [idx_vt_s_equator_eq L hl r hr]
  ring

theorem idx_vt_s_cap_eq (L hl r : ℤ) (hr : 0 ≤ r) :
    idx_vt_s_cap L hl r = L + (2 * hl + r) * (L + 1) := by
  unfold idx_vt_s_cap
  rw [idx_vt_s_polar_eq L hl r hr]
  ring

theorem idx_vn_south_cap_eq (L hl : ℤ) :
    idx_vn_south_cap L hl = 1 + (2 * hl - 2) * L := by
  unfold idx_vn_south_cap idx_vn_south idx_v_n_equator
  ring

theorem idx_vn_south_pole_eq (L hl : ℤ) :
    idx_vn_south_pole L hl = 1 + (2 * hl - 1) * L := by
  unfold idx_vn_south_pole idx_vn_south_cap idx_vn_south idx_v_n_equator
  ring

set_option maxHeartbeats 1600000 in
/-- All texture face indices are valid positions of the `vts` buffer. -/
theorem capsule_vt_indices_bounds (L hl r : ℤ)
    (hL : 3 ≤ L) (hhl : 1 ≤ hl) (hr : 0 ≤ r) :
    ∀ f ∈ capsule_vt_indices L hl r, ∀ x ∈ f,
      0 ≤ x ∧ x < len_vts L hl r := by
  have hlen : len_vts L hl r = 2 * L + (2 * hl + r) * (L + 1) := by
    rw [len_vts_closed L hl r hr]; ring
  intro f hf
  unfold capsule_vt_indices at hf
  dsimp only at hf
  simp only [List.mem_append, ringL, gridL, List.mem_flatMap,
    List.mem_map, List.mem_range] at hf
  rcases hf with ((((⟨j, hj, rfl⟩ | ⟨i, hi, j, hj, rfl⟩) |
      ⟨m, hm, j, hj, rfl⟩) | ⟨i, hi, j, hj, rfl⟩) | ⟨j, hj, rfl⟩) <;>
    intro x hx
  · have hj' : (j : ℤ) < L := by omega
    simp only [List.mem_cons, List.not_mem_nil, or_false] at hx
    have hp1 : 0 < (2 * hl + r) * (L + 1) :=
      mul_pos (by omega) (by omega)
    rcases hx with rfl | rfl | rfl <;>
      constructor <;> [positivity; linarith; positivity; linarith;
        positivity; linarith]
  · have hj' : (j : ℤ) < L := by omega
    have hi' : (i : ℤ) ≤ hl - 2 := by omega
    simp only [quadFaceSeam, List.mem_cons, List.not_mem_nil, or_false]
      at hx
    have k1 : ((i : ℤ) + 1) * (L + 1) ≤ (hl - 1) * (L + 1) :=
      mul_le_mul_of_nonneg_right (by omega) (by omega)
    have k2 : (hl - 1 + 1) * (L + 1) ≤ (2 * hl + r) * (L + 1) :=
      mul_le_mul_of_nonneg_right (by omega) (by omega)
    have k0 : 0 ≤ (i : ℤ) * (L + 1) := by positivity
    rcases hx with rfl | rfl | rfl | rfl <;>
      constructor <;> (try rw [hlen]) <;> nlinarith [k0, k1, k2]
  · have hj' : (j : ℤ) < L := by omega
    have hj0 : (0 : ℤ) ≤ (j : ℤ) := Int.natCast_nonneg j
    simp only [quadFaceSeam, List.mem_cons, List.not_mem_nil, or_false]
      at hx
    have k1 : ((hl - 1) + (m : ℤ) + 1) * (L + 1) ≤
        (hl + r) * (L + 1) :=
      mul_le_mul_of_nonneg_right (by omega) (by omega)
    have k2 : (hl + r + 1) * (L + 1) ≤ (2 * hl + r) * (L + 1) :=
      mul_le_mul_of_nonneg_right (by omega) (by omega)
    have k0 : 0 ≤ (m : ℤ) * (L + 1) := by positivity
    have k3 : 0 ≤ (hl - 1) * (L + 1) :=
      mul_nonneg (by omega) (by omega)
    rcases hx with rfl | rfl | rfl | rfl <;>
      constructor <;> (try rw [hlen]) <;> rw [idx_vt_n_equator_eq] <;>
      (ring_nf at k0 k1 k2 k3 ⊢; linarith [k0, k1, k2, k3])
  · have hj' : (j : ℤ) < L := by omega
    have hj0 : (0 : ℤ) ≤ (j : ℤ) := Int.natCast_nonneg j
    simp only [quadFaceSeam, List.mem_cons, List.not_mem_nil, or_false]
      at hx
    have k1 : ((hl + r) + (i : ℤ) + 1) * (L + 1) ≤
        (2 * hl + r - 1) * (L + 1) :=
      mul_le_mul_of_nonneg_right (by omega) (by omega)
    have k2 : (2 * hl + r - 1 + 1) * (L + 1) ≤
        (2 * hl + r) * (L + 1) :=
      mul_le_mul_of_nonneg_right (by omega) (by omega)
    have k0 : 0 ≤ (i : ℤ) * (L + 1) := by positivity
    have k3 : 0 ≤ (hl + r) * (L + 1) :=
      mul_nonneg (by omega) (by omega)
    rcases hx with rfl | rfl | rfl | rfl <;>
      constructor <;> (try rw [hlen]) <;>
      rw [idx_vt_s_equator_eq L hl r hr] <;>
      (ring_nf at k0 k1 k2 k3 ⊢; linarith [k0, k1, k2, k3])
  · have hj' : (j : ℤ) < L := by omega
    have hj0 : (0 : ℤ) ≤ (j : ℤ) := Int.natCast_nonneg j
    simp only [southFanFaceVT, List.mem_cons, List.not_mem_nil, or_false]
      at hx
    have k1 : (2 * hl + r - 1 + 1) * (L + 1) ≤
        (2 * hl + r) * (L + 1) :=
      mul_le_mul_of_nonneg_right (by omega) (by omega)
    have k3 : 0 ≤ (2 * hl + r - 1) * (L + 1) :=
      mul_nonneg (by omega) (by omega)
    rcases hx with rfl | rfl | rfl <;> constructor <;>
      (try rw [hlen]) <;> (try rw [idx_vt_s_cap_eq L hl r hr]) <;>
      (try rw [idx_vt_s_polar_eq L hl r hr])
    all_goals (ring_nf at k1 k3 ⊢; linarith [k1, k3])

set_option maxHeartbeats 1600000 in
/-- All normal face indices are valid positions of the `vns` buffer. -/
theorem capsule_vn_indices_bounds (L hl r : ℤ)
    (hL : 3 ≤ L) (hhl : 1 ≤ hl) (hr : 0 ≤ r) :
    ∀ f ∈ capsule_vn_indices L hl r, ∀ x ∈ f,
      0 ≤ x ∧ x < len_vns L hl := by
  have hlen : len_vns L hl = 1 + (2 * hl) * L := by
    rw [len_vns_closed]; ring
  intro f hf
  unfold capsule_vn_indices at hf
  dsimp only at hf
  simp only [List.mem_append, ringL, gridL, List.mem_flatMap,
    List.mem_map, List.mem_range] at hf
  have hone : (1 : ℤ) * L ≤ (2 * hl) * L :=
    mul_le_mul_of_nonneg_right (by omega) (by omega)
  rcases hf with ((((⟨j, hj, rfl⟩ | ⟨i, hi, j, hj, rfl⟩) |
      ⟨m, hm, j, hj, rfl⟩) | ⟨i, hi, j, hj, rfl⟩) | ⟨j, hj, rfl⟩) <;>
    intro x hx
  · have hj' : (j : ℤ) < L := by omega
    have hjn' : ((jnv L.toNat j : ℕ) : ℤ) < L := by
      have := jnv_lt L.toNat j (by omega)
      omega
    have hjn0 : (0 : ℤ) ≤ ((jnv L.toNat j : ℕ) : ℤ) :=
      Int.natCast_nonneg _
    have hj0 : (0 : ℤ) ≤ (j : ℤ) := Int.natCast_nonneg j
    simp only [northFanFace, List.mem_cons, List.not_mem_nil, or_false]
      at hx
    rcases hx with rfl | rfl | rfl <;> constructor <;>
      (try rw [hlen]) <;> (ring_nf at hone ⊢; linarith [hone])
  · have hj' : (j : ℤ) < L := by omega
    have hjn' : ((jnv L.toNat j : ℕ) : ℤ) < L := by
      have := jnv_lt L.toNat j (by omega)
      omega
    have hjn0 : (0 : ℤ) ≤ ((jnv L.toNat j : ℕ) : ℤ) :=
      Int.natCast_nonneg _
    have hj0 : (0 : ℤ) ≤ (j : ℤ) := Int.natCast_nonneg j
    have k0 : 0 ≤ (i : ℤ) * L := by positivity
    have k1 : ((i : ℤ) + 1) * L ≤ (hl - 1) * L :=
      mul_le_mul_of_nonneg_right (by omega) (by omega)
    have k2 : hl * L ≤ (2 * hl) * L :=
      mul_le_mul_of_nonneg_right (by omega) (by omega)
    simp only [quadFace, List.mem_cons, List.not_mem_nil, or_false] at hx
    rcases hx with rfl | rfl | rfl | rfl <;> constructor <;>
      (try rw [hlen]) <;> (ring_nf at k0 k1 k2 ⊢; linarith [k0, k1, k2])
  · have hj' : (j : ℤ) < L := by omega
    have hjn' : ((jnv L.toNat j : ℕ) : ℤ) < L := by
      have := jnv_lt L.toNat j (by omega)
      omega
    have hjn0 : (0 : ℤ) ≤ ((jnv L.toNat j : ℕ) : ℤ) :=
      Int.natCast_nonneg _
    have hj0 : (0 : ℤ) ≤ (j : ℤ) := Int.natCast_nonneg j
    have k1 : (hl - 1) * L ≤ (2 * hl - 1) * L :=
      mul_le_mul_of_nonneg_right (by omega) (by omega)
    have k2 : (2 * hl - 1 + 1) * L ≤ (2 * hl) * L :=
      mul_le_mul_of_nonneg_right (by omega) (by omega)
    have k3 : 0 ≤ (hl - 1) * L := mul_nonneg (by omega) (by omega)
    simp only [cylQuadFaceVN, List.mem_cons, List.not_mem_nil, or_false]
      at hx
    rcases hx with rfl | rfl | rfl | rfl <;> constructor <;>
      (try rw [hlen]) <;> rw [idx_v_n_equator_eq] <;>
      (ring_nf at k1 k2 k3 ⊢; linarith [k1, k2, k3])
  · have hj' : (j : ℤ) < L := by omega
    have hjn' : ((jnv L.toNat j : ℕ) : ℤ) < L := by
      have := jnv_lt L.toNat j (by omega)
      omega
    have hjn0 : (0 : ℤ) ≤ ((jnv L.toNat j : ℕ) : ℤ) :=
      Int.natCast_nonneg _
    have hj0 : (0 : ℤ) ≤ (j : ℤ) := Int.natCast_nonneg j
    have k0 : 0 ≤ (i : ℤ) * L := by positivity
    have k1 : ((hl - 1) + (i : ℤ) + 1) * L ≤ (2 * hl - 1) * L :=
      mul_le_mul_of_nonneg_right (by omega) (by omega)
    have k2 : (2 * hl - 1 + 1) * L ≤ (2 * hl) * L :=
      mul_le_mul_of_nonneg_right (by omega) (by omega)
    have k3 : 0 ≤ (hl - 1) * L := mul_nonneg (by omega) (by omega)
    simp only [quadFace, List.mem_cons, List.not_mem_nil, or_false] at hx
    rcases hx with rfl | rfl | rfl | rfl <;> constructor <;>
      (try rw [hlen]) <;> rw [idx_v_n_equator_eq] <;>
      (ring_nf at k0 k1 k2 k3 ⊢; linarith [k0, k1, k2, k3])
  · have hj' : (j : ℤ) < L := by omega
    have hjn' : ((jnv L.toNat j : ℕ) : ℤ) < L := by
      have := jnv_lt L.toNat j (by omega)
      omega
    have hjn0 : (0 : ℤ) ≤ ((jnv L.toNat j : ℕ) : ℤ) :=
      Int.natCast_nonneg _
    have hj0 : (0 : ℤ) ≤ (j : ℤ) := Int.natCast_nonneg j
    have k1 : (2 * hl - 2) * L ≤ (2 * hl - 1) * L :=
      mul_le_mul_of_nonneg_right (by omega) (by omega)
    have k2 : (2 * hl - 1 + 1) * L ≤ (2 * hl) * L :=
      mul_le_mul_of_nonneg_right (by omega) (by omega)
    have k3 : 0 ≤ (2 * hl - 2) * L := mul_nonneg (by omega) (by omega)
    simp only [southFanFace, List.mem_cons, List.not_mem_nil, or_false]
      at hx
    rcases hx with rfl | rfl | rfl <;> constructor <;>
      (try rw [hlen]) <;> (try rw [idx_vn_south_pole_eq]) <;>
      (try rw [idx_vn_south_cap_eq]) <;>
      (ring_nf at k1 k2 k3 ⊢; linarith [k1, k2, k3])

/-- C10: every index in every face tuple of `v_indices`, `vt_indices` and
`vn_indices` is a valid 0-based position of the corresponding `vs`, `vts`
or `vns` buffer, and within each vertex face tuple the indices are pairwise
distinct. -/
theorem builder_indices_valid (st sp : ℕ → ℚ × ℚ) (lons lats rings : ℤ)
    (depth radius : ℚ) (uv_profile : UVProfile) :
    (∀ f ∈ (create_capsule_data st sp lons lats rings depth radius
        uv_profile).v_indices,
      (∀ x ∈ f, 0 ≤ x ∧ x < ((create_capsule_data st sp lons lats rings
        depth radius uv_profile).vs.length : ℤ)) ∧
      List.Pairwise (fun a b => a ≠ b) f) ∧
    (∀ f ∈ (create_capsule_data st sp lons lats rings depth radius
        uv_profile).vt_indices,
      ∀ x ∈ f, 0 ≤ x ∧ x < ((create_capsule_data st sp lons lats rings
        depth radius uv_profile).vts.length : ℤ)) ∧
    (∀ f ∈ (create_capsule_data st sp lons lats rings depth radius
        uv_profile).vn_indices,
      ∀ x ∈ f, 0 ≤ x ∧ x < ((create_capsule_data st sp lons lats rings
        depth radius uv_profile).vns.length : ℤ)) := by
  obtain ⟨hvs, -, -, -, -, -, hvts, -, hvns, -⟩ :=
    builder_buffer_lengths st sp lons lats rings depth radius uv_profile
      (verif_lons lons) (verif_lats lats) (verif_rings rings) rfl rfl rfl
  have h3 : 3 ≤ verif_lons lons := verif_lons_ge lons
  have h2 : 2 ≤ verif_lats lats := verif_lats_ge lats
  have hev : verif_lats lats % 2 = 0 := verif_lats_even lats
  have h0 : 0 ≤ verif_rings rings := verif_rings_nonneg rings
  have hhl : 1 ≤ verif_lats lats / 2 := by omega
  refine ⟨?_, ?_, ?_⟩
  · intro f hf
    rw [create_capsule_data_v_indices,
      capsule_v_indices_canonical _ _ _ h3 hhl h0] at hf
    have hLn : 3 ≤ (verif_lons lons).toNat := by omega
    have hK : 2 ≤ (2 * (verif_lats lats / 2) + verif_rings rings).toNat :=
      by omega
    obtain ⟨hb, hp⟩ := canFaces_valid hLn hK f hf
    refine ⟨?_, hp⟩
    intro x hx
    obtain ⟨h0x, h1x⟩ := hb x hx
    refine ⟨h0x, ?_⟩
    rw [hvs]
    have hsvp : svp (verif_lons lons).toNat
        (2 * (verif_lats lats / 2) + verif_rings rings).toNat =
        len_vs (verif_lons lons) (verif_lats lats / 2)
          (verif_rings rings) - 1 := by
      unfold svp
      rw [len_vs_closed _ _ _ h0]
      push_cast [Int.toNat_of_nonneg (show (0 : ℤ) ≤ verif_lons lons by
        omega), Int.toNat_of_nonneg (show (0 : ℤ) ≤
          2 * (verif_lats lats / 2) + verif_rings rings by omega)]
      ring
    linarith [h1x, le_of_eq hsvp]
  · intro f hf
    rw [create_capsule_data_vt_indices] at hf
    intro x hx
    have h := capsule_vt_indices_bounds _ _ _ h3 hhl h0 f hf x hx
    rw [hvts]
    exact h
  · intro f hf
    rw [create_capsule_data_vn_indices] at hf
    intro x hx
    have h := capsule_vn_indices_bounds _ _ _ h3 hhl h0 f hf x hx
    rw [hvns]
    exact h

/-- Witness for C10: the first face of the minimal capsule references
index 1, a valid distinct vertex. -/
theorem builder_indices_valid_witness :
    0 ≤ (1 : ℤ) ∧ (1 : ℤ) <
      ((create_capsule_data (fun _ => ((0 : ℚ), (1 : ℚ)))
        (fun _ => ((0 : ℚ), (1 : ℚ))) 4 2 0 1 (1 / 2)
        UVProfile.FIXED).vs.length : ℤ) := by
  have h := ((builder_indices_valid (fun _ => ((0 : ℚ), (1 : ℚ)))
    (fun _ => ((0 : ℚ), (1 : ℚ))) 4 2 0 1 (1 / 2) UVProfile.FIXED).1
    [0, 1, 2] (by decide)).1 1 (by decide)
  exact h

/-! ### Watertightness of the face list (C3)

A directed edge of a face is a pair of cyclically consecutive vertex
indices.  The face list is watertight when every directed edge occurs
exactly once and its reversal also occurs exactly once (each undirected
edge then lies in exactly two faces, wound in opposite directions). -/

/-- The directed boundary edges of one face: each entry paired with its
cyclic successor. -/
def faceEdges (f : List ℤ) : List (ℤ × ℤ) := f.zip (f.rotate 1)

/-- All directed edges of a face list. -/
def meshEdges (fs : List (List ℤ)) : List (ℤ × ℤ) := fs.flatMap faceEdges

theorem faceEdges_three (a b c : ℤ) :
    faceEdges [a, b, c] = [(a, b), (b, c), (c, a)] := rfl

theorem faceEdges_four (a b c d : ℤ) :
    faceEdges [a, b, c, d] = [(a, b), (b, c), (c, d), (d, a)] := rfl

theorem pair_ne_fst {a b c d : ℤ} (h : a ≠ c) : (a, b) ≠ (c, d) :=
  fun he => h (congrArg Prod.fst he)

theorem pair_ne_snd {a b c d : ℤ} (h : b ≠ d) : (a, b) ≠ (c, d) :=
  fun he => h (congrArg Prod.snd he)

/-- Membership in the canonical mesh's directed edge list, by region. -/
theorem mem_meshEdges_canFaces {Ln K : ℕ} (e : ℤ × ℤ) :
    e ∈ meshEdges (canFaces Ln K) ↔
      (∃ j, j < Ln ∧ (e = (0, rv Ln 0 j) ∨
        e = (rv Ln 0 j, rv Ln 0 (jnv Ln j)) ∨
        e = (rv Ln 0 (jnv Ln j), 0))) ∨
      (∃ k, k < K - 1 ∧ ∃ j, j < Ln ∧
        (e = (rv Ln k j, rv Ln (k + 1) j) ∨
         e = (rv Ln (k + 1) j, rv Ln (k + 1) (jnv Ln j)) ∨
         e = (rv Ln (k + 1) (jnv Ln j), rv Ln k (jnv Ln j)) ∨
         e = (rv Ln k (jnv Ln j), rv Ln k j))) ∨
      (∃ j, j < Ln ∧ (e = (svp Ln K, rv Ln (K - 1) (jnv Ln j)) ∨
        e = (rv Ln (K - 1) (jnv Ln j), rv Ln (K - 1) j) ∨
        e = (rv Ln (K - 1) j, svp Ln K))) := by
  simp only [meshEdges, canFaces, List.flatMap_append, List.mem_append,
    ringL, gridL, List.flatMap_map, List.mem_flatMap, List.mem_map,
    List.mem_range, canFanN, canQuad, canFanS, faceEdges_three,
    faceEdges_four, List.mem_cons, List.not_mem_nil, or_false,
    Function.comp]
  rw [or_assoc]
  refine or_congr Iff.rfl (or_congr ?_ Iff.rfl)
  constructor
  · rintro ⟨a, ⟨k, hk, j, hj, rfl⟩, he⟩
    simp only [faceEdges_four, List.mem_cons, List.not_mem_nil, or_false]
      at he
    exact ⟨k, hk, j, hj, he⟩
  · rintro ⟨k, hk, j, hj, he⟩
    refine ⟨_, ⟨k, hk, j, hj, rfl⟩, ?_⟩
    simp only [faceEdges_four, List.mem_cons, List.not_mem_nil, or_false]
    exact he

/-- Every directed edge's reversal is also a directed edge of the mesh:
each interior edge is shared by the two adjacent faces with opposite
winding. -/
theorem meshEdges_swap_closed {Ln K : ℕ} (hLn : 3 ≤ Ln) (hK : 2 ≤ K) :
    ∀ e ∈ meshEdges (canFaces Ln K),
      Prod.swap e ∈ meshEdges (canFaces Ln K) := by
  intro e he
  rw [mem_meshEdges_canFaces] at he ⊢
  rcases he with ⟨j, hj, he⟩ | ⟨k, hk, j, hj, he⟩ | ⟨j, hj, he⟩
  · rcases he with rfl | rfl | rfl
    · obtain ⟨j0, hj0, hj0e⟩ := jnv_surj (by omega) hj
      exact Or.inl ⟨j0, hj0, Or.inr (Or.inr
        (by rw [Prod.swap_prod_mk, hj0e]))⟩
    · exact Or.inr (Or.inl ⟨0, by omega, j, hj,
        Or.inr (Or.inr (Or.inr (by rw [Prod.swap_prod_mk])))⟩)
    · exact Or.inl ⟨jnv Ln j, jnv_lt Ln j (by omega),
        Or.inl (by rw [Prod.swap_prod_mk])⟩
  · rcases he with rfl | rfl | rfl | rfl
    · obtain ⟨j0, hj0, hj0e⟩ := jnv_surj (by omega) hj
      exact Or.inr (Or.inl ⟨k, hk, j0, hj0,
        Or.inr (Or.inr (Or.inl (by rw [Prod.swap_prod_mk, hj0e])))⟩)
    · by_cases hcase : k + 1 < K - 1
      · exact Or.inr (Or.inl ⟨k + 1, hcase, j, hj,
          Or.inr (Or.inr (Or.inr (by rw [Prod.swap_prod_mk])))⟩)
      · have hk1 : K - 1 = k + 1 := by omega
        exact Or.inr (Or.inr ⟨j, hj, Or.inr (Or.inl
          (by rw [Prod.swap_prod_mk, hk1]))⟩)
    · exact Or.inr (Or.inl ⟨k, hk, jnv Ln j, jnv_lt Ln j (by omega),
        Or.inl (by rw [Prod.swap_prod_mk])⟩)
    · rcases Nat.eq_zero_or_pos k with rfl | hkpos
      · exact Or.inl ⟨j, hj, Or.inr (Or.inl (by rw [Prod.swap_prod_mk]))⟩
      · refine Or.inr (Or.inl ⟨k - 1, by omega, j, hj, Or.inr (Or.inl ?_)⟩)
        rw [Prod.swap_prod_mk]
        have h1 : k - 1 + 1 = k := by omega
        rw [h1]
  · rcases he with rfl | rfl | rfl
    · exact Or.inr (Or.inr ⟨jnv Ln j, jnv_lt Ln j (by omega),
        Or.inr (Or.inr (by rw [Prod.swap_prod_mk]))⟩)
    · refine Or.inr (Or.inl ⟨K - 2, by omega, j, hj, Or.inr (Or.inl ?_)⟩)
      rw [Prod.swap_prod_mk]
      have h2 : K - 2 + 1 = K - 1 := by omega
      rw [h2]
    · obtain ⟨j0, hj0, hj0e⟩ := jnv_surj (by omega) hj
      exact Or.inr (Or.inr ⟨j0, hj0, Or.inl
        (by rw [Prod.swap_prod_mk, hj0e])⟩)

theorem rv_ne_of_row {Ln k k' j j' : ℕ} (hj : j < Ln) (hj' : j' < Ln)
    (h : k ≠ k') : rv Ln k j ≠ rv Ln k' j' :=
  fun he => h (rv_inj hj hj' he).1

theorem rv_ne_of_col {Ln k k' j j' : ℕ} (hj : j < Ln) (hj' : j' < Ln)
    (h : j ≠ j') : rv Ln k j ≠ rv Ln k' j' :=
  fun he => h (rv_inj hj hj' he).2

theorem svp_ne_zero (Ln K : ℕ) : svp Ln K ≠ 0 := ne_of_gt (svp_pos Ln K)

/-- A forward-directed horizontal edge (from column `j` to its successor)
never coincides with a backward-directed one, whatever the rows: the
column pattern would force the successor map to be an involution, which it
is not for three or more longitudes. -/
theorem forward_ne_backward {Ln : ℕ} (hLn : 3 ≤ Ln) {a b c d j j' : ℕ}
    (hj : j < Ln) (hj' : j' < Ln) :
    (rv Ln a j, rv Ln b (jnv Ln j)) ≠ (rv Ln c (jnv Ln j'), rv Ln d j') := by
  intro h
  rw [Prod.mk.injEq] at h
  have hnj' : jnv Ln j' < Ln := jnv_lt Ln j' (by omega)
  have hnj : jnv Ln j < Ln := jnv_lt Ln j (by omega)
  have h1 := (rv_inj hj hnj' h.1).2
  have h2 := (rv_inj hnj hj' h.2).2
  have : jnv Ln (jnv Ln j') = j' := by rw [← h1]; exact h2
  exact jnv_jnv_ne hLn hj' this

/-- The directed edges of the north fan triangles are pairwise distinct. -/
theorem fanN_edges_nodup {Ln : ℕ} (hLn : 3 ≤ Ln) :
    ((List.range Ln).flatMap (fun j => faceEdges (canFanN Ln j))).Nodup := by
  rw [List.nodup_flatMap]
  constructor
  · intro j hj
    rw [List.mem_range] at hj
    have hjn : jnv Ln j < Ln := jnv_lt Ln j (by omega)
    rw [canFanN, faceEdges_three]
    exact pairwise3 _ _ _
      (pair_ne_fst (rv_ne_zero Ln 0 j).symm)
      (pair_ne_fst (rv_ne_zero Ln 0 (jnv Ln j)).symm)
      (pair_ne_fst (rv_ne_of_col hj hjn (jnv_ne_self (by omega) hj).symm))
  · refine List.Pairwise.imp_of_mem ?_ (List.pairwise_lt_range Ln)
    intro a b ha hb hlt
    rw [List.mem_range] at ha hb
    have hna : jnv Ln a < Ln := jnv_lt Ln a (by omega)
    have hnb : jnv Ln b < Ln := jnv_lt Ln b (by omega)
    simp only [Function.onFun]
    intro x hxa hxb
    simp only [canFanN, faceEdges_three, List.mem_cons, List.not_mem_nil,
      or_false] at hxa hxb
    rcases hxa with rfl | rfl | rfl <;> rcases hxb with h | h | h <;>
      rw [Prod.mk.injEq] at h
    · exact absurd (rv_inj ha hb h.2).2 (by omega)
    · exact (rv_ne_zero Ln 0 b) h.1.symm
    · exact (rv_ne_zero Ln 0 (jnv Ln b)) h.1.symm
    · exact (rv_ne_zero Ln 0 a) h.1
    · exact absurd (rv_inj ha hb h.1).2 (by omega)
    · exact (rv_ne_zero Ln 0 (jnv Ln a)) h.2
    · exact (rv_ne_zero Ln 0 (jnv Ln a)) h.1
    · exact (rv_ne_zero Ln 0 (jnv Ln b)) h.2.symm
    · exact absurd (jnv_inj ha hb (rv_inj hna hnb h.1).2) (by omega)

/-- The directed edges of the south fan triangles are pairwise distinct. -/
theorem fanS_edges_nodup {Ln K : ℕ} (hLn : 3 ≤ Ln) (hK : 2 ≤ K) :
    ((List.range Ln).flatMap
      (fun j => faceEdges (canFanS Ln K j))).Nodup := by
  have hK1 : K - 1 < K := by omega
  rw [List.nodup_flatMap]
  constructor
  · intro j hj
    rw [List.mem_range] at hj
    have hjn : jnv Ln j < Ln := jnv_lt Ln j (by omega)
    rw [canFanS, faceEdges_three]
    exact pairwise3 _ _ _
      (pair_ne_fst (rv_ne_svp hK1 hjn).symm)
      (pair_ne_fst (rv_ne_svp hK1 hj).symm)
      (pair_ne_fst (rv_ne_of_col hjn hj (jnv_ne_self (by omega) hj)))
  · refine List.Pairwise.imp_of_mem ?_ (List.pairwise_lt_range Ln)
    intro a b ha hb hlt
    rw [List.mem_range] at ha hb
    have hna : jnv Ln a < Ln := jnv_lt Ln a (by omega)
    have hnb : jnv Ln b < Ln := jnv_lt Ln b (by omega)
    simp only [Function.onFun]
    intro x hxa hxb
    simp only [canFanS, faceEdges_three, List.mem_cons, List.not_mem_nil,
      or_false] at hxa hxb
    rcases hxa with rfl | rfl | rfl <;> rcases hxb with h | h | h
    · exact absurd (jnv_inj ha hb
        (rv_inj hna hnb (congrArg Prod.snd h)).2) (by omega)
    · exact pair_ne_fst (rv_ne_svp hK1 hnb).symm h
    · exact pair_ne_fst (rv_ne_svp hK1 hb).symm h
    · exact pair_ne_fst (rv_ne_svp hK1 hna) h
    · exact absurd (jnv_inj ha hb
        (rv_inj hna hnb (congrArg Prod.fst h)).2) (by omega)
    · exact pair_ne_snd (rv_ne_svp hK1 ha) h
    · exact pair_ne_fst (rv_ne_svp hK1 ha) h
    · exact pair_ne_snd (rv_ne_svp hK1 hb).symm h
    · exact absurd (rv_inj ha hb (congrArg Prod.fst h)).2 (by omega)

/-- The directed edges of the quad bands are pairwise distinct. -/
theorem quad_edges_nodup {Ln K : ℕ} (hLn : 3 ≤ Ln) :
    ((List.range (K - 1)).flatMap (fun k => (List.range Ln).flatMap
      (fun j => faceEdges (canQuad Ln k j)))).Nodup := by
  rw [List.nodup_flatMap]
  constructor
  · intro k hk
    rw [List.mem_range] at hk
    rw [List.nodup_flatMap]
    constructor
    · intro j hj
      rw [List.mem_range] at hj
      have hjn : jnv Ln j < Ln := jnv_lt Ln j (by omega)
      have hjne : jnv Ln j ≠ j := jnv_ne_self (by omega) hj
      rw [canQuad, faceEdges_four]
      exact pairwise4 _ _ _ _
        (pair_ne_fst (rv_ne_of_row hj hj (by omega)))
        (pair_ne_fst (rv_ne_of_row hj hjn (by omega)))
        (pair_ne_fst (rv_ne_of_col hj hjn hjne.symm))
        (pair_ne_fst (rv_ne_of_col hj hjn hjne.symm))
        (pair_ne_fst (rv_ne_of_row hj hjn (by omega)))
        (pair_ne_fst (rv_ne_of_row hjn hjn (by omega)))
    · refine List.Pairwise.imp_of_mem ?_ (List.pairwise_lt_range Ln)
      intro a b ha hb hlt
      rw [List.mem_range] at ha hb
      have hna : jnv Ln a < Ln := jnv_lt Ln a (by omega)
      have hnb : jnv Ln b < Ln := jnv_lt Ln b (by omega)
      have hab : a ≠ b := by omega
      have hanb : jnv Ln a ≠ jnv Ln b := fun h => hab (jnv_inj ha hb h)
      simp only [Function.onFun]
      intro x hxa hxb
      simp only [canQuad, faceEdges_four, List.mem_cons, List.not_mem_nil,
        or_false] at hxa hxb
      rcases hxa with rfl | rfl | rfl | rfl <;>
        rcases hxb with h | h | h | h
      · exact pair_ne_fst (rv_ne_of_col ha hb hab) h
      · exact pair_ne_fst (rv_ne_of_row ha hb (by omega)) h
      · exact pair_ne_fst (rv_ne_of_row ha hnb (by omega)) h
      · exact pair_ne_snd (rv_ne_of_row ha hb (by omega)) h
      · exact pair_ne_fst (rv_ne_of_row ha hb (by omega)) h
      · exact pair_ne_fst (rv_ne_of_col ha hb hab) h
      · exact pair_ne_snd (rv_ne_of_row hna hnb (by omega)) h
      · exact forward_ne_backward hLn ha hb h
      · exact pair_ne_fst (rv_ne_of_row hna hb (by omega)) h
      · exact pair_ne_snd (rv_ne_of_row hna hnb (by omega)) h
      · exact pair_ne_fst (rv_ne_of_col hna hnb hanb) h
      · exact pair_ne_fst (rv_ne_of_row hna hnb (by omega)) h
      · exact pair_ne_snd (rv_ne_of_row ha hb (by omega)) h
      · exact forward_ne_backward hLn hb ha h.symm
      · exact pair_ne_fst (rv_ne_of_row hna hnb (by omega)) h
      · exact pair_ne_fst (rv_ne_of_col hna hnb hanb) h
  · refine List.Pairwise.imp_of_mem ?_ (List.pairwise_lt_range (K - 1))
    intro k k' hkm hkm' hlt
    rw [List.mem_range] at hkm hkm'
    simp only [Function.onFun]
    intro x hxk hxk'
    simp only [List.mem_flatMap, List.mem_range] at hxk hxk'
    obtain ⟨a, ha, hxa⟩ := hxk
    obtain ⟨b, hb, hxb⟩ := hxk'
    have hna : jnv Ln a < Ln := jnv_lt Ln a (by omega)
    have hnb : jnv Ln b < Ln := jnv_lt Ln b (by omega)
    simp only [canQuad, faceEdges_four, List.mem_cons, List.not_mem_nil,
      or_false] at hxa hxb
    rcases hxa with rfl | rfl | rfl | rfl <;>
      rcases hxb with h | h | h | h
    · exact pair_ne_fst (rv_ne_of_row ha hb (by omega)) h
    · exact pair_ne_snd (rv_ne_of_row ha hnb (by omega)) h
    · exact pair_ne_fst (rv_ne_of_row ha hnb (by omega)) h
    · exact pair_ne_fst (rv_ne_of_row ha hnb (by omega)) h
    · exact pair_ne_snd (rv_ne_of_row hna hb (by omega)) h
    · exact pair_ne_fst (rv_ne_of_row ha hb (by omega)) h
    · exact pair_ne_fst (rv_ne_of_row ha hnb (by omega)) h
    · exact forward_ne_backward hLn ha hb h
    · exact pair_ne_snd (rv_ne_of_row hna hb (by omega)) h
    · exact pair_ne_snd (rv_ne_of_row hna hnb (by omega)) h
    · exact pair_ne_fst (rv_ne_of_row hna hnb (by omega)) h
    · exact pair_ne_snd (rv_ne_of_row hna hb (by omega)) h
    · exact pair_ne_fst (rv_ne_of_row hna hb (by omega)) h
    · exact forward_ne_backward hLn hb ha h.symm
    · exact pair_ne_snd (rv_ne_of_row ha hnb (by omega)) h
    · exact pair_ne_fst (rv_ne_of_row hna hnb (by omega)) h

/-- North fan edges and quad band edges are disjoint. -/
theorem fanN_quad_disjoint {Ln K : ℕ} (hLn : 3 ≤ Ln) :
    List.Disjoint
      ((List.range Ln).flatMap (fun j => faceEdges (canFanN Ln j)))
      ((List.range (K - 1)).flatMap (fun k => (List.range Ln).flatMap
        (fun j => faceEdges (canQuad Ln k j)))) := by
  intro x hx1 hx2
  simp only [List.mem_flatMap, List.mem_range] at hx1 hx2
  obtain ⟨a, ha, hxa⟩ := hx1
  obtain ⟨k, hk, b, hb, hxb⟩ := hx2
  have hna : jnv Ln a < Ln := jnv_lt Ln a (by omega)
  have hnb : jnv Ln b < Ln := jnv_lt Ln b (by omega)
  simp only [canFanN, canQuad, faceEdges_three, faceEdges_four,
    List.mem_cons, List.not_mem_nil, or_false] at hxa hxb
  rcases hxa with rfl | rfl | rfl <;> rcases hxb with h | h | h | h
  · exact pair_ne_fst (rv_ne_zero Ln k b).symm h
  · exact pair_ne_fst (rv_ne_zero Ln (k + 1) b).symm h
  · exact pair_ne_fst (rv_ne_zero Ln (k + 1) (jnv Ln b)).symm h
  · exact pair_ne_fst (rv_ne_zero Ln k (jnv Ln b)).symm h
  · exact pair_ne_snd (rv_ne_of_row hna hb (by omega)) h
  · exact pair_ne_fst (rv_ne_of_row ha hb (by omega)) h
  · exact pair_ne_fst (rv_ne_of_row ha hnb (by omega)) h
  · exact forward_ne_backward hLn ha hb h
  · exact pair_ne_snd (rv_ne_zero Ln (k + 1) b).symm h
  · exact pair_ne_snd (rv_ne_zero Ln (k + 1) (jnv Ln b)).symm h
  · exact pair_ne_snd (rv_ne_zero Ln k (jnv Ln b)).symm h
  · exact pair_ne_snd (rv_ne_zero Ln k b).symm h

/-- North fan edges and south fan edges are disjoint. -/
theorem fanN_fanS_disjoint {Ln K : ℕ} (hLn : 3 ≤ Ln) (hK : 2 ≤ K) :
    List.Disjoint
      ((List.range Ln).flatMap (fun j => faceEdges (canFanN Ln j)))
      ((List.range Ln).flatMap (fun j => faceEdges (canFanS Ln K j))) := by
  have hK1 : K - 1 < K := by omega
  intro x hx1 hx2
  simp only [List.mem_flatMap, List.mem_range] at hx1 hx2
  obtain ⟨a, ha, hxa⟩ := hx1
  obtain ⟨b, hb, hxb⟩ := hx2
  have hna : jnv Ln a < Ln := jnv_lt Ln a (by omega)
  have hnb : jnv Ln b < Ln := jnv_lt Ln b (by omega)
  simp only [canFanN, canFanS, faceEdges_three, List.mem_cons,
    List.not_mem_nil, or_false] at hxa hxb
  rcases hxa with rfl | rfl | rfl <;> rcases hxb with h | h | h
  · exact pair_ne_fst (svp_ne_zero Ln K).symm h
  · exact pair_ne_fst (rv_ne_zero Ln (K - 1) (jnv Ln b)).symm h
  · exact pair_ne_fst (rv_ne_zero Ln (K - 1) b).symm h
  · exact pair_ne_fst (rv_ne_svp (show 0 < K by omega) ha) h
  · exact forward_ne_backward hLn ha hb h
  · exact pair_ne_snd (rv_ne_svp (show 0 < K by omega) hna) h
  · exact pair_ne_snd (rv_ne_zero Ln (K - 1) (jnv Ln b)).symm h
  · exact pair_ne_snd (rv_ne_zero Ln (K - 1) b).symm h
  · exact pair_ne_snd (svp_ne_zero Ln K).symm h

/-- Quad band edges and south fan edges are disjoint. -/
theorem quad_fanS_disjoint {Ln K : ℕ} (hLn : 3 ≤ Ln) (hK : 2 ≤ K) :
    List.Disjoint
      ((List.range (K - 1)).flatMap (fun k => (List.range Ln).flatMap
        (fun j => faceEdges (canQuad Ln k j))))
      ((List.range Ln).flatMap (fun j => faceEdges (canFanS Ln K j))) := by
  have hK1 : K - 1 < K := by omega
  intro x hx1 hx2
  simp only [List.mem_flatMap, List.mem_range] at hx1 hx2
  obtain ⟨k, hk, a, ha, hxa⟩ := hx1
  obtain ⟨b, hb, hxb⟩ := hx2
  have hna : jnv Ln a < Ln := jnv_lt Ln a (by omega)
  have hnb : jnv Ln b < Ln := jnv_lt Ln b (by omega)
  simp only [canQuad, canFanS, faceEdges_three, faceEdges_four,
    List.mem_cons, List.not_mem_nil, or_false] at hxa hxb
  rcases hxa with rfl | rfl | rfl | rfl <;> rcases hxb with h | h | h
  · exact pair_ne_fst (rv_ne_svp (show k < K by omega) ha) h
  · exact pair_ne_fst (rv_ne_of_row ha hnb (by omega)) h
  · exact pair_ne_snd (rv_ne_svp (show k + 1 < K by omega) ha) h
  · exact pair_ne_fst (rv_ne_svp (show k + 1 < K by omega) ha) h
  · exact forward_ne_backward hLn ha hb h
  · exact pair_ne_snd (rv_ne_svp (show k + 1 < K by omega) hna) h
  · exact pair_ne_fst (rv_ne_svp (show k + 1 < K by omega) hna) h
  · exact pair_ne_snd (rv_ne_of_row hna hb (by omega)) h
  · exact pair_ne_snd (rv_ne_svp (show k < K by omega) hna) h
  · exact pair_ne_fst (rv_ne_svp (show k < K by omega) hna) h
  · exact pair_ne_fst (rv_ne_of_row hna hnb (by omega)) h
  · exact pair_ne_snd (rv_ne_svp (show k < K by omega) ha) h

/-- The canonical mesh's directed edge list has no duplicates: every
directed edge occurs at most once. -/
theorem meshEdges_canFaces_nodup {Ln K : ℕ} (hLn : 3 ≤ Ln) (hK : 2 ≤ K) :
    (meshEdges (canFaces Ln K)).Nodup := by
  have hrw : meshEdges (canFaces Ln K) =
      ((List.range Ln).flatMap (fun j => faceEdges (canFanN Ln j)) ++
        (List.range (K - 1)).flatMap (fun k => (List.range Ln).flatMap
          (fun j => faceEdges (canQuad Ln k j)))) ++
      (List.range Ln).flatMap (fun j => faceEdges (canFanS Ln K j)) := by
    simp only [meshEdges, canFaces, List.flatMap_append, ringL, gridL,
      List.flatMap_map, List.flatMap_assoc]
  rw [hrw]
  refine List.Nodup.append
    (List.Nodup.append (fanN_edges_nodup hLn) (quad_edges_nodup hLn)
      (fanN_quad_disjoint hLn))
    (fanS_edges_nodup hLn hK) ?_
  rw [List.disjoint_append_left]
  exact ⟨fanN_fanS_disjoint hLn hK, quad_fanS_disjoint hLn hK⟩

/-- Each canonical face's own edge list has no duplicates. -/
theorem canFaces_faceEdges_nodup {Ln K : ℕ} (hLn : 3 ≤ Ln) (hK : 2 ≤ K) :
    ∀ f ∈ canFaces Ln K, (faceEdges f).Nodup := by
  intro f hf
  simp only [canFaces, List.mem_append, ringL, gridL, List.mem_flatMap,
    List.mem_map, List.mem_range] at hf
  rcases hf with (⟨j, hj, rfl⟩ | ⟨k, hk, j, hj, rfl⟩) | ⟨j, hj, rfl⟩
  · have hjn : jnv Ln j < Ln := jnv_lt Ln j (by omega)
    rw [canFanN, faceEdges_three]
    exact pairwise3 _ _ _
      (pair_ne_fst (rv_ne_zero Ln 0 j).symm)
      (pair_ne_fst (rv_ne_zero Ln 0 (jnv Ln j)).symm)
      (pair_ne_fst (rv_ne_of_col hj hjn (jnv_ne_self (by omega) hj).symm))
  · have hjn : jnv Ln j < Ln := jnv_lt Ln j (by omega)
    have hjne : jnv Ln j ≠ j := jnv_ne_self (by omega) hj
    rw [canQuad, faceEdges_four]
    exact pairwise4 _ _ _ _
      (pair_ne_fst (rv_ne_of_row hj hj (by omega)))
      (pair_ne_fst (rv_ne_of_row hj hjn (by omega)))
      (pair_ne_fst (rv_ne_of_col hj hjn hjne.symm))
      (pair_ne_fst (rv_ne_of_col hj hjn hjne.symm))
      (pair_ne_fst (rv_ne_of_row hj hjn (by omega)))
      (pair_ne_fst (rv_ne_of_row hjn hjn (by omega)))
  · have hjn : jnv Ln j < Ln := jnv_lt Ln j (by omega)
    have hK1 : K - 1 < K := by omega
    rw [canFanS, faceEdges_three]
    exact pairwise3 _ _ _
      (pair_ne_fst (rv_ne_svp hK1 hjn).symm)
      (pair_ne_fst (rv_ne_svp hK1 hj).symm)
      (pair_ne_fst (rv_ne_of_col hjn hj (jnv_ne_self (by omega) hj)))

/-- No canonical face contains a directed edge together with its
reversal. -/
theorem canFaces_no_reverse {Ln K : ℕ} (hLn : 3 ≤ Ln) (hK : 2 ≤ K) :
    ∀ f ∈ canFaces Ln K, ∀ e ∈ faceEdges f,
      Prod.swap e ∉ faceEdges f := by
  intro f hf
  simp only [canFaces, List.mem_append, ringL, gridL, List.mem_flatMap,
    List.mem_map, List.mem_range] at hf
  rcases hf with (⟨j, hj, rfl⟩ | ⟨k, hk, j, hj, rfl⟩) | ⟨j, hj, rfl⟩ <;>
    intro e he hse
  · have hjn : jnv Ln j < Ln := jnv_lt Ln j (by omega)
    have hjne : jnv Ln j ≠ j := jnv_ne_self (by omega) hj
    simp only [canFanN, faceEdges_three, List.mem_cons, List.not_mem_nil,
      or_false] at he hse
    rcases he with rfl | rfl | rfl <;>
      rw [Prod.swap_prod_mk] at hse <;> rcases hse with h | h | h
    · exact pair_ne_fst (rv_ne_zero Ln 0 j) h
    · exact pair_ne_snd (rv_ne_zero Ln 0 (jnv Ln j)).symm h
    · exact pair_ne_fst (rv_ne_of_col hj hjn hjne.symm) h
    · exact pair_ne_fst (rv_ne_zero Ln 0 (jnv Ln j)) h
    · exact pair_ne_fst (rv_ne_of_col hjn hj hjne) h
    · exact pair_ne_snd (rv_ne_zero Ln 0 j) h
    · exact pair_ne_snd (rv_ne_of_col hjn hj hjne) h
    · exact pair_ne_fst (rv_ne_zero Ln 0 j).symm h
    · exact pair_ne_fst (rv_ne_zero Ln 0 (jnv Ln j)).symm h
  · have hjn : jnv Ln j < Ln := jnv_lt Ln j (by omega)
    have hjne : jnv Ln j ≠ j := jnv_ne_self (by omega) hj
    simp only [canQuad, faceEdges_four, List.mem_cons, List.not_mem_nil,
      or_false] at he hse
    rcases he with rfl | rfl | rfl | rfl <;>
      rw [Prod.swap_prod_mk] at hse <;> rcases hse with h | h | h | h
    · exact pair_ne_fst (rv_ne_of_row hj hj (by omega)) h
    · exact pair_ne_snd (rv_ne_of_row hj hjn (by omega)) h
    · exact pair_ne_fst (rv_ne_of_col hj hjn hjne.symm) h
    · exact pair_ne_fst (rv_ne_of_row hj hjn (by omega)) h
    · exact pair_ne_fst (rv_ne_of_row hjn hj (by omega)) h
    · exact pair_ne_fst (rv_ne_of_col hjn hj hjne) h
    · exact pair_ne_snd (rv_ne_of_row hj hjn (by omega)) h
    · exact pair_ne_fst (rv_ne_of_row hjn hjn (by omega)) h
    · exact pair_ne_fst (rv_ne_of_col hjn hj hjne) h
    · exact pair_ne_fst (rv_ne_of_row hjn hj (by omega)) h
    · exact pair_ne_fst (rv_ne_of_row hjn hjn (by omega)) h
    · exact pair_ne_snd (rv_ne_of_row hjn hj (by omega)) h
    · exact pair_ne_snd (rv_ne_of_row hjn hj (by omega)) h
    · exact pair_ne_fst (rv_ne_of_row hj hj (by omega)) h
    · exact pair_ne_fst (rv_ne_of_row hj hjn (by omega)) h
    · exact pair_ne_fst (rv_ne_of_col hj hjn hjne.symm) h
  · have hjn : jnv Ln j < Ln := jnv_lt Ln j (by omega)
    have hjne : jnv Ln j ≠ j := jnv_ne_self (by omega) hj
    have hK1 : K - 1 < K := by omega
    simp only [canFanS, faceEdges_three, List.mem_cons, List.not_mem_nil,
      or_false] at he hse
    rcases he with rfl | rfl | rfl <;>
      rw [Prod.swap_prod_mk] at hse <;> rcases hse with h | h | h
    · exact pair_ne_fst (rv_ne_svp hK1 hjn) h
    · exact pair_ne_snd (Ne.symm (rv_ne_svp hK1 hj)) h
    · exact pair_ne_fst (rv_ne_of_col hjn hj hjne) h
    · exact pair_ne_fst (rv_ne_svp hK1 hj) h
    · exact pair_ne_fst (rv_ne_of_col hj hjn hjne.symm) h
    · exact pair_ne_snd (rv_ne_svp hK1 hjn) h
    · exact pair_ne_snd (rv_ne_of_col hj hjn hjne.symm) h
    · exact pair_ne_fst (rv_ne_svp hK1 hjn).symm h
    · exact pair_ne_fst (rv_ne_svp hK1 hj).symm h

/-- Counting with any lawful boolean equality: a member of a
duplicate-free list is counted exactly once. -/
theorem count_one_of_nodup_mem {α : Type} [BEq α] [LawfulBEq α]
    {l : List α} {a : α} (hn : l.Nodup) (ha : a ∈ l) : l.count a = 1 := by
  induction l with
  | nil => cases ha
  | cons x l ih =>
    rw [List.count_cons]
    rcases List.mem_cons.mp ha with rfl | hmem
    · rw [List.count_eq_zero.mpr (List.nodup_cons.mp hn).1]
      simp
    · have hx : x ≠ a := fun he => (List.nodup_cons.mp hn).1 (he ▸ hmem)
      rw [ih (List.nodup_cons.mp hn).2 hmem]
      simp [hx]

/-- When each face's edge list has no duplicates, the number of faces
containing a directed edge equals that edge's count in the flattened edge
list. -/
theorem countP_faces_eq_count_meshEdges (e : ℤ × ℤ) (fs : List (List ℤ))
    (h : ∀ f ∈ fs, (faceEdges f).Nodup) :
    fs.countP (fun f => decide (e ∈ faceEdges f)) =
      (meshEdges fs).count e := by
  induction fs with
  | nil => rfl
  | cons f fs ih =>
    have hf := h f (List.mem_cons_self f fs)
    have hrest : ∀ g ∈ fs, (faceEdges g).Nodup :=
      fun g hg => h g (List.mem_cons_of_mem f hg)
    have hm : meshEdges (f :: fs) = faceEdges f ++ meshEdges fs := by
      simp [meshEdges]
    rw [List.countP_cons, hm, List.count_append, ih hrest]
    by_cases hmem : e ∈ faceEdges f
    · rw [count_one_of_nodup_mem hf hmem]
      simp [hmem]
      omega
    · rw [List.count_eq_zero.mpr hmem]
      simp [hmem]

/-- Counting a disjunction of two predicates that never hold together
splits into a sum. -/
theorem countP_or_of_never_both {α : Type} (p q : α → Bool) (l : List α)
    (h : ∀ x ∈ l, ¬(p x = true ∧ q x = true)) :
    l.countP (fun x => p x || q x) = l.countP p + l.countP q := by
  induction l with
  | nil => rfl
  | cons a l ih =>
    have ha := h a (List.mem_cons_self a l)
    rw [List.countP_cons, List.countP_cons, List.countP_cons,
      ih (fun x hx => h x (List.mem_cons_of_mem a hx))]
    by_cases hp : p a = true <;> by_cases hq : q a = true
    · exact absurd ⟨hp, hq⟩ ha
    · simp [hp, hq]
      omega
    · simp [hp, hq]
      omega
    · simp [hp, hq]

/-- C3: for all Builder parameters (the source clamps them itself:
`verif_lons`/`verif_lats`/`verif_rings` at lines 170-179), the vertex face
list of `create_capsule_data` is watertight with consistent winding: every
directed edge (pair of cyclically consecutive vertex indices of a face)
occurs exactly once in the mesh, its reversal also occurs exactly once,
and the undirected edge therefore lies in exactly two faces, wound in
opposite directions. -/
theorem builder_watertight (st sp : ℕ → ℚ × ℚ) (lons lats rings : ℤ)
    (depth radius : ℚ) (uv_profile : UVProfile) :
    ∀ e ∈ meshEdges ((create_capsule_data st sp lons lats rings depth
        radius uv_profile).v_indices),
      (meshEdges ((create_capsule_data st sp lons lats rings depth radius
        uv_profile).v_indices)).count e = 1 ∧
      (meshEdges ((create_capsule_data st sp lons lats rings depth radius
        uv_profile).v_indices)).count (Prod.swap e) = 1 ∧
      ((create_capsule_data st sp lons lats rings depth radius
        uv_profile).v_indices).countP
          (fun f => decide (e ∈ faceEdges f) ||
            decide (Prod.swap e ∈ faceEdges f)) = 2 := by
  have h3 : 3 ≤ verif_lons lons := verif_lons_ge lons
  have h2 : 2 ≤ verif_lats lats := verif_lats_ge lats
  have hev : verif_lats lats % 2 = 0 := verif_lats_even lats
  have h0 : 0 ≤ verif_rings rings := verif_rings_nonneg rings
  have hhl : 1 ≤ verif_lats lats / 2 := by omega
  have hrw : (create_capsule_data st sp lons lats rings depth radius
      uv_profile).v_indices = canFaces (verif_lons lons).toNat
        (2 * (verif_lats lats / 2) + verif_rings rings).toNat := by
    rw [create_capsule_data_v_indices,
      capsule_v_indices_canonical _ _ _ h3 hhl h0]
  have hLn : 3 ≤ (verif_lons lons).toNat := by omega
  have hK : 2 ≤ (2 * (verif_lats lats / 2) + verif_rings rings).toNat :=
    by omega
  rw [hrw]
  intro e he
  have hnd := meshEdges_canFaces_nodup hLn hK
  have hsw := meshEdges_swap_closed hLn hK e he
  have hc1 := count_one_of_nodup_mem hnd he
  have hc2 := count_one_of_nodup_mem hnd hsw
  refine ⟨hc1, hc2, ?_⟩
  rw [countP_or_of_never_both _ _ _ (fun f hf hb =>
    canFaces_no_reverse hLn hK f hf e (of_decide_eq_true hb.1)
      (of_decide_eq_true hb.2)),
    countP_faces_eq_count_meshEdges e _ (canFaces_faceEdges_nodup hLn hK),
    countP_faces_eq_count_meshEdges (Prod.swap e) _
      (canFaces_faceEdges_nodup hLn hK), hc1, hc2]

/-- Witness for C3: in the minimal capsule, edge (0, 1) occurs once, its
reversal occurs once, and the undirected edge lies in exactly two faces. -/
theorem builder_watertight_witness :
    (meshEdges ((create_capsule_data (fun _ => ((0 : ℚ), (1 : ℚ)))
        (fun _ => ((0 : ℚ), (1 : ℚ))) 4 2 0 1 (1 / 2)
        UVProfile.FIXED).v_indices)).count ((0 : ℤ), (1 : ℤ)) = 1 ∧
    (meshEdges ((create_capsule_data (fun _ => ((0 : ℚ), (1 : ℚ)))
        (fun _ => ((0 : ℚ), (1 : ℚ))) 4 2 0 1 (1 / 2)
        UVProfile.FIXED).v_indices)).count
          (Prod.swap ((0 : ℤ), (1 : ℤ))) = 1 ∧
    ((create_capsule_data (fun _ => ((0 : ℚ), (1 : ℚ)))
        (fun _ => ((0 : ℚ), (1 : ℚ))) 4 2 0 1 (1 / 2)
        UVProfile.FIXED).v_indices).countP
      (fun f => decide (((0 : ℤ), (1 : ℤ)) ∈ faceEdges f) ||
        decide (Prod.swap ((0 : ℤ), (1 : ℤ)) ∈ faceEdges f)) = 2 :=
  builder_watertight (fun _ => ((0 : ℚ), (1 : ℚ)))
    (fun _ => ((0 : ℚ), (1 : ℚ))) 4 2 0 1 (1 / 2) UVProfile.FIXED
    ((0 : ℤ), (1 : ℤ)) (by decide)
